/-
Verification of the teardown app's core pipeline (src/app.py):
the JSON-from-text extractor `extract_json`, the retrying completion
client `call_llm`, the prompt builder `build_teardown_prompt`, and the
fallback-producing `generate_teardown`.

Python values parsed from JSON are modelled by the inductive type `Json`
below.  Python's `json.loads` returns `None` for the JSON text "null",
and `extract_json` also returns `None` as its failure signal, so the two
are observably conflated in the source; the model mirrors this by making
`extract_json` return `Json.null` as the failure signal.

Model scope (documented restrictions, none touched by the claims):
numbers are integers (float literals are outside the model), `\s` in the
two regexes is modelled by its ASCII subset, and `str.lower` by ASCII
lowercasing.
-/
import Mathlib

set_option maxHeartbeats 1000000

/-- Python values produced by `json.loads`: `None`, `bool`, `int`, `str`,
`list`, `dict` (insertion-ordered association list). -/
inductive Json where
  | null : Json
  | bool : Bool → Json
  | num : Int → Json
  | str : String → Json
  | arr : List Json → Json
  | obj : List (String × Json) → Json

/-- Whether a Python value is a dict (a JSON object). -/
def Json.isObj : Json → Bool
  | .obj _ => true
  | _ => false

/-- Whether a Python value is `None` (the `parsed is None` test). -/
def Json.isNull : Json → Bool
  | .null => true
  | _ => false

/-- The four JSON whitespace characters skipped by Python's `json` module. -/
def jsonWs (c : Char) : Bool :=
  c = ' ' || c = '\t' || c = '\n' || c = '\r'

/-- Skip JSON whitespace. -/
def skipWs (l : List Char) : List Char :=
  l.dropWhile jsonWs

/-- Lowercase hex digit, as produced by Python's `'\\u{0:04x}'` escapes. -/
def hexDigitChar (n : Nat) : Char :=
  if n < 10 then Char.ofNat (48 + n) else Char.ofNat (87 + n)

/-- Escaping of one character by `json.dumps` with `ensure_ascii=False`
(the form the app's export path uses): `"` and `\` get a backslash, the
named control escapes are used for `\b \t \n \f \r`, all other control
characters become `\u00xx`, and everything else is passed through. -/
def escapeChar (c : Char) : List Char :=
  if c = '"' then ['\\', '"']
  else if c = '\\' then ['\\', '\\']
  else if c = '\x08' then ['\\', 'b']
  else if c = '\t' then ['\\', 't']
  else if c = '\n' then ['\\', 'n']
  else if c = '\x0c' then ['\\', 'f']
  else if c = '\r' then ['\\', 'r']
  else if c.toNat < 32 then
    ['\\', 'u', '0', '0', hexDigitChar (c.toNat / 16), hexDigitChar (c.toNat % 16)]
  else [c]

/-- Escape every character of a string body. -/
def escChars (l : List Char) : List Char :=
  l.foldr (fun c acc => escapeChar c ++ acc) []

/-- A JSON string literal: quote, escaped body, quote. -/
def escapeString (s : String) : List Char :=
  '"' :: escChars s.data ++ ['"']

/-- Decimal digits of a natural number, fuelled (fuel `n + 1` always
suffices since `n / 10 < n` for `n ≥ 10`). -/
def natToCharsFuel : Nat → Nat → List Char
  | 0, _ => []
  | fuel + 1, n =>
    if n < 10 then [Char.ofNat (48 + n)]
    else natToCharsFuel fuel (n / 10) ++ [Char.ofNat (48 + n % 10)]

/-- Decimal digits of a natural number, as `str(int)` prints them. -/
def natToChars (n : Nat) : List Char :=
  natToCharsFuel (n + 1) n

/-- Decimal form of an integer, as `str(int)` prints it. -/
def intToChars (i : Int) : List Char :=
  if i < 0 then '-' :: natToChars i.natAbs else natToChars i.toNat

mutual

/-- Serialization of a value by `json.dumps` with the default separators
`", "` and `": "` and `ensure_ascii=False`. -/
def serJson : Json → List Char
  | .null => "null".data
  | .bool true => "true".data
  | .bool false => "false".data
  | .num i => intToChars i
  | .str s => escapeString s
  | .arr [] => "[]".data
  | .arr (x :: xs) => '[' :: (serJson x ++ serArrTail xs)
  | .obj [] => "{}".data
  | .obj ((k, v) :: kvs) =>
      '{' :: (escapeString k ++ ':' :: ' ' :: serJson v ++ serObjTail kvs)

/-- Remaining array items: `", item"` repeated, then `"]"`. -/
def serArrTail : List Json → List Char
  | [] => [']']
  | x :: xs => ',' :: ' ' :: (serJson x ++ serArrTail xs)

/-- Remaining object members: `", \"key\": value"` repeated, then the
closing brace. -/
def serObjTail : List (String × Json) → List Char
  | [] => ['}']
  | (k, v) :: kvs => ',' :: ' ' :: (escapeString k ++ ':' :: ' ' :: serJson v ++ serObjTail kvs)

end

/-- `json.dumps` (default separators, `ensure_ascii=False`). -/
def json_dumps (v : Json) : String :=
  String.mk (serJson v)

/-- Value of a hex digit, case-insensitive, as in `\uXXXX` escapes. -/
def hexVal? (c : Char) : Option Nat :=
  if 48 ≤ c.toNat ∧ c.toNat ≤ 57 then some (c.toNat - 48)
  else if 97 ≤ c.toNat ∧ c.toNat ≤ 102 then some (c.toNat - 87)
  else if 65 ≤ c.toNat ∧ c.toNat ≤ 70 then some (c.toNat - 55)
  else none

/-- Body of a JSON string literal after the opening quote, per Python's
strict scanner: raw control characters are rejected, the named escapes
and `\uXXXX` (with surrogate-pair combination) are decoded.  Lone
surrogates, which Lean's `Char` cannot hold, make the model fail.
Fuelled by input length plus one (each step consumes a character). -/
def parseStringAux : Nat → List Char → List Char → Option (String × List Char)
  | 0, _, _ => none
  | _ + 1, [], _ => none
  | fuel + 1, c :: rest, acc =>
    if c = '"' then some (String.mk acc.reverse, rest)
    else if c = '\\' then
      match rest with
      | '"' :: r => parseStringAux fuel r ('"' :: acc)
      | '\\' :: r => parseStringAux fuel r ('\\' :: acc)
      | '/' :: r => parseStringAux fuel r ('/' :: acc)
      | 'b' :: r => parseStringAux fuel r ('\x08' :: acc)
      | 'f' :: r => parseStringAux fuel r ('\x0c' :: acc)
      | 'n' :: r => parseStringAux fuel r ('\n' :: acc)
      | 'r' :: r => parseStringAux fuel r ('\r' :: acc)
      | 't' :: r => parseStringAux fuel r ('\t' :: acc)
      | 'u' :: h1 :: h2 :: h3 :: h4 :: r =>
        match hexVal? h1, hexVal? h2, hexVal? h3, hexVal? h4 with
        | some a, some b, some c2, some d =>
          if 0xD800 ≤ ((a * 16 + b) * 16 + c2) * 16 + d ∧
              ((a * 16 + b) * 16 + c2) * 16 + d ≤ 0xDBFF then
            match r with
            | '\\' :: 'u' :: g1 :: g2 :: g3 :: g4 :: r2 =>
              match hexVal? g1, hexVal? g2, hexVal? g3, hexVal? g4 with
              | some a2, some b2, some c3, some d2 =>
                if 0xDC00 ≤ ((a2 * 16 + b2) * 16 + c3) * 16 + d2 ∧
                    ((a2 * 16 + b2) * 16 + c3) * 16 + d2 ≤ 0xDFFF then
                  parseStringAux fuel r2
                    (Char.ofNat (0x10000 +
                      ((((a * 16 + b) * 16 + c2) * 16 + d) - 0xD800) * 0x400 +
                      ((((a2 * 16 + b2) * 16 + c3) * 16 + d2) - 0xDC00)) :: acc)
                else none
              | _, _, _, _ => none
            | _ => none
          else if 0xDC00 ≤ ((a * 16 + b) * 16 + c2) * 16 + d ∧
              ((a * 16 + b) * 16 + c2) * 16 + d ≤ 0xDFFF then none
          else parseStringAux fuel r
            (Char.ofNat (((a * 16 + b) * 16 + c2) * 16 + d) :: acc)
        | _, _, _, _ => none
      | _ => none
    else if c.toNat < 32 then none
    else parseStringAux fuel rest (c :: acc)

/-- `parseStringAux` with its canonical fuel. -/
def parseString (l : List Char) (acc : List Char) : Option (String × List Char) :=
  parseStringAux (l.length + 1) l acc

/-- ASCII decimal digit test. -/
def isDigitChar (c : Char) : Bool :=
  48 ≤ c.toNat && c.toNat ≤ 57

/-- Numeric value accumulated from a digit list. -/
def digitsToNat (l : List Char) : Nat :=
  l.foldl (fun a c => 10 * a + (c.toNat - 48)) 0

/-- An unsigned JSON integer: Python's `(0|[1-9]\d*)` with no fraction or
exponent (float literals are outside the model and fail). -/
def parseNumCore (l : List Char) : Option (Nat × List Char) :=
  match l.takeWhile isDigitChar with
  | [] => none
  | d :: ds =>
    if d = '0' ∧ ds ≠ [] then none
    else
      match l.dropWhile isDigitChar with
      | c :: _ =>
        if c = '.' ∨ c = 'e' ∨ c = 'E' then none
        else some (digitsToNat (d :: ds), l.dropWhile isDigitChar)
      | [] => some (digitsToNat (d :: ds), [])

/-- A JSON number (integer), with optional leading minus. -/
def parseNum (l : List Char) : Option (Json × List Char) :=
  if l.head? = some '-' then
    (parseNumCore l.tail).map (fun p => (Json.num (-(p.1 : Int)), p.2))
  else
    (parseNumCore l).map (fun p => (Json.num (p.1 : Int), p.2))

/-- Python `dict` insertion: an existing key keeps its position and gets
the new value, a new key is appended. -/
def dictInsert : List (String × Json) → String → Json → List (String × Json)
  | [], k, v => [(k, v)]
  | (k', v') :: rest, k, v =>
    if k' = k then (k', v) :: rest else (k', v') :: dictInsert rest k v

/-- The dict built from parsed members in order, as Python's object hook
does (later duplicate keys overwrite earlier ones in place). -/
def mkObj (ps : List (String × Json)) : List (String × Json) :=
  ps.foldl (fun m kv => dictInsert m kv.1 kv.2) []

mutual

/-- One JSON value at the head of the input, per Python's scanner.
`NaN`/`Infinity` and float literals are outside the model. -/
def parseVal : Nat → List Char → Option (Json × List Char)
  | 0, _ => none
  | fuel + 1, l =>
    match l with
    | [] => none
    | c :: rest =>
      if c = '{' then
        match skipWs rest with
        | '}' :: r => some (.obj [], r)
        | '"' :: r =>
          match parseString r [] with
          | some (k, r1) =>
            match skipWs r1 with
            | ':' :: r2 =>
              match parseVal fuel (skipWs r2) with
              | some (v, r3) => parseMemTail fuel r3 [(k, v)]
              | none => none
            | _ => none
          | none => none
        | _ => none
      else if c = '[' then
        match skipWs rest with
        | ']' :: r => some (.arr [], r)
        | s1 =>
          match parseVal fuel s1 with
          | some (v, r1) => parseTail fuel r1 [v]
          | none => none
      else if c = '"' then
        match parseString rest [] with
        | some (s, r) => some (.str s, r)
        | none => none
      else if c = 'n' then
        match rest with
        | 'u' :: 'l' :: 'l' :: r => some (.null, r)
        | _ => none
      else if c = 't' then
        match rest with
        | 'r' :: 'u' :: 'e' :: r => some (.bool true, r)
        | _ => none
      else if c = 'f' then
        match rest with
        | 'a' :: 'l' :: 's' :: 'e' :: r => some (.bool false, r)
        | _ => none
      else if c = '-' || isDigitChar c then parseNum (c :: rest)
      else none

/-- Array items after the first one: `, value` repeated until `]`. -/
def parseTail : Nat → List Char → List Json → Option (Json × List Char)
  | 0, _, _ => none
  | fuel + 1, l, acc =>
    match skipWs l with
    | ']' :: r => some (.arr acc.reverse, r)
    | ',' :: r =>
      match parseVal fuel (skipWs r) with
      | some (v, r1) => parseTail fuel r1 (v :: acc)
      | none => none
    | _ => none

/-- Object members after the first one: `, "key": value` repeated until
the closing brace. -/
def parseMemTail : Nat → List Char → List (String × Json) → Option (Json × List Char)
  | 0, _, _ => none
  | fuel + 1, l, acc =>
    match skipWs l with
    | '}' :: r => some (.obj (mkObj acc.reverse), r)
    | ',' :: r =>
      match skipWs r with
      | '"' :: r1 =>
        match parseString r1 [] with
        | some (k, r2) =>
          match skipWs r2 with
          | ':' :: r3 =>
            match parseVal fuel (skipWs r3) with
            | some (v, r4) => parseMemTail fuel r4 ((k, v) :: acc)
            | none => none
          | _ => none
        | none => none
      | _ => none
    | _ => none

end

/-- `json.loads` on a character list: skip surrounding whitespace, parse
exactly one value, reject trailing garbage.  The fuel `length + 1`
suffices because every recursive parser call consumes a character
first. -/
def json_loads_chars (l : List Char) : Option Json :=
  let s := skipWs l
  match parseVal (s.length + 1) s with
  | some (v, r) => if skipWs r = [] then some v else none
  | none => none

/-- `json.loads` on a string. -/
def json_loads (s : String) : Option Json :=
  json_loads_chars s.data

/-- Characters matched by regex `\s` (ASCII subset of Python's set). -/
def reWs (c : Char) : Bool :=
  c = ' ' || c = '\t' || c = '\n' || c = '\r' || c = '\x0b' || c = '\x0c'

/-- Whether, after optional `\s*`, the input starts with three backticks:
the tail `\s*```" of the fence pattern. -/
def threeTicksAfter (l : List Char) : Bool :=
  match l.dropWhile reWs with
  | '`' :: '`' :: '`' :: _ => true
  | _ => false

/-- Greedy `.*close` with DOTALL inside the fence pattern: the largest
index holding `close` such that `\s*``` matches right after it.  Returns
the content up to and including that `close`. -/
def greedyClose (close : Char) (l : List Char) : Option (List Char) :=
  ((List.range l.length).reverse.find? fun p =>
      (l.get? p == some close) && threeTicksAfter (l.drop (p + 1))).map
    fun p => l.take (p + 1)

/-- Match of `\s*(\{.*\}|\[.*\])\s*``` right after a "```json" marker:
skip whitespace, then a greedy brace- or bracket-delimited group. -/
def fenceFrom (s : List Char) : Option (List Char) :=
  match s.dropWhile reWs with
  | '{' :: rest => (greedyClose '}' rest).map fun content => '{' :: content
  | '[' :: rest => (greedyClose ']' rest).map fun content => '[' :: content
  | _ => none

/-- `re.search` for the fence pattern: try each occurrence of "```json"
from the left, returning the first position where the rest of the
pattern matches; the capture group is the fenced JSON-looking text. -/
def findFence : List Char → Option (List Char)
  | [] => none
  | c :: rest =>
    if (c :: rest).take 7 = "```json".data then
      match fenceFrom ((c :: rest).drop 7) with
      | some g => some g
      | none => findFence rest
    else findFence rest

/-- The candidate text after the fence step: the fenced group when the
fence regex matches, the whole text otherwise. -/
def fenceCandidate (l : List Char) : List Char :=
  (findFence l).getD l

/-- Index of the last occurrence of a character (`str.rfind`). -/
def lastIdxOf (c : Char) (l : List Char) : Option Nat :=
  (List.findIdx? (fun x => x = c) l.reverse).map fun i => l.length - 1 - i

/-- `text[start:end+1]` for `start = text.find('{')`,
`end = text.rfind('}')`, provided both exist and `end > start`. -/
def braceSlice (l : List Char) : Option (List Char) :=
  match List.findIdx? (fun x => x = '{') l, lastIdxOf '}' l with
  | some s, some e => if s < e then some ((l.drop s).take (e - s + 1)) else none
  | _, _ => none

/-- One pass of `re.sub(r",\s*([}\]])", r"\1", _)`: each comma followed
by optional whitespace and a closing brace or bracket is replaced by
just that bracket, scanning left to right without overlap.  Fuelled by
input length (each step consumes at least one character). -/
def stripCommasFuel : Nat → List Char → List Char
  | 0, l => l
  | _ + 1, [] => []
  | fuel + 1, c :: rest =>
    if c = ',' then
      match rest.dropWhile reWs with
      | '}' :: r2 => '}' :: stripCommasFuel fuel r2
      | ']' :: r2 => ']' :: stripCommasFuel fuel r2
      | _ => c :: stripCommasFuel fuel rest
    else c :: stripCommasFuel fuel rest

/-- The trailing-comma normalization pass of `extract_json`. -/
def stripTrailingCommas (l : List Char) : List Char :=
  stripCommasFuel (l.length + 1) l

/-- `extract_json` from src/app.py.  Returns `Json.null` for Python's
`None` (both the explicit failure returns and a parsed JSON "null",
which the source cannot tell apart). -/
def extract_json (text : Option String) : Json :=
  match text with
  | none => Json.null
  | some s =>
    if s = "" then Json.null
    else
      let t := fenceCandidate s.data
      match json_loads_chars t with
      | some v => v
      | none =>
        match braceSlice t with
        | some candidate =>
          match json_loads_chars candidate with
          | some v => v
          | none =>
            match json_loads_chars (stripTrailingCommas candidate) with
            | some v => v
            | none => Json.null
        | none => Json.null

/-- The fixed verbosity lookup of src/app.py keyed by the depth label;
`dict.get(d, "")` falls back to the empty string. -/
def depth_to_instruction (d : String) : String :=
  (([("Quick (bullets)",
      "Produce concise, high-impact bullet points (1-4 bullets per section)."),
     ("Standard (detailed)",
      "Provide structured analysis with 4-8 bullets per section and short rationale sentences."),
     ("Deep (comprehensive)",
      "Provide an in-depth multi-paragraph analysis using frameworks and examples for each section.")]
    : List (String × String)).lookup d).getD ""

/-- The static industry hint mapping of src/app.py. -/
def INDUSTRY_TEMPLATES : List (String × String) :=
  [("General / Consumer",
    "Focus on consumer acquisition, retention hooks, network effects, pricing psychology, and UX simplicity."),
   ("FinTech",
    "Focus on regulatory constraints, payments & flows, trust signals, onboarding (KYC), monetization via interchange/fees, fraud & compliance concerns, and merchant/partner flows."),
   ("Marketplace",
    "Focus on two-sided network dynamics (supply/demand), liquidity, take rates, onboarding incentives, quality controls, and marketplace matching algorithms."),
   ("SaaS / B2B",
    "Focus on buyer personas, sales motions (self-serve vs enterprise), onboarding/activation for users/teams, trial/enterprise pricing, retention via ROI, and product-led growth experiments."),
   ("EdTech",
    "Focus on learning outcomes, curriculum design, engagement loops, teacher/platform dynamics, certification, and measurement of learning retention."),
   ("HealthTech",
    "Focus on trust & compliance (HIPAA-like), clinician workflows, patient onboarding, safety-critical UX, integrations with EMR, and monetization models.")]

/-- `INDUSTRY_TEMPLATES.get(industry_key, "")`. -/
def industryHint (industry_key : String) : String :=
  (INDUSTRY_TEMPLATES.lookup industry_key).getD ""

/-- `build_teardown_prompt` from src/app.py: the f-string template with
the subject, hint, verbosity clause and yes/no flags interpolated. -/
def build_teardown_prompt (product_text industry_key depth : String)
    (include_user_flow include_metrics include_templates : Bool) : String :=
  let industry_hint := industryHint industry_key
  let explicit_instruction := depth_to_instruction depth
  let include_user_flow_flag := if include_user_flow then "yes" else "no"
  let include_metrics_flag := if include_metrics then "yes" else "no"
  let include_templates_flag := if include_templates then "yes" else "no"
  "\nYou are an expert Product Manager & Growth strategist.\n\nProduct description:\n\"\"\""
    ++ product_text
    ++ "\"\"\"\n\nContext: "
    ++ industry_hint
    ++ "\nDepth instruction: "
    ++ explicit_instruction
    ++ "\n\nProduce exactly ONE JSON object (no surrounding text) with the following keys:\n- strategy: an array of 3-6 concise strings describing positioning, target segments, monetization levers.\n- growth_loops: an array of 3-6 strings describing primary acquisition & virality loops with estimated impact percentages where reasonable.\n- engagement_mechanics: an array of 4-8 strings describing activation, retention hooks, notifications, onboarding steps.\n- kpis: an object with keys: north_star, leading_indicators (array), dashboard_analytics (array of metric names).\n- ux_teardown: array of observations about UX/flows, friction points, and microcopy suggestions (include sample microcopy if INCLUDE_USER_FLOW=yes).\n- swot: object with keys: strengths (array), weaknesses (array), opportunities (array), threats (array).\n- opportunities: array of short product/experiment ideas prioritized (short/medium/long-term).\n- one_pager: a short markdown string (3-6 sentences) summarizing the product thesis and top recommendations.\n\nREQUIREMENTS:\n- Return valid JSON only (no commentary).\n- If INCLUDE_USER_FLOW is "
    ++ include_user_flow_flag
    ++ " then include 1 short suggested user flow (3-6 steps) inside ux_teardown items.\n- If INCLUDE_METRICS is "
    ++ include_metrics_flag
    ++ " then include realistic KPI names and 1 example target (e.g., conversion 3% -> 4%).\n- If INCLUDE_TEMPLATES is "
    ++ include_templates_flag
    ++ " then include one experiment idea in each of growth_loops and engagement_mechanics.\n\nBe concrete and action-oriented.\n"

/-- Observable trace of one `call_llm` run: the returned value, how many
service calls were made, the `time.sleep` durations in order, and the
`last_exc` surfaced to `st.error` when the budget is exhausted. -/
structure CallTrace where
  result : Option String
  calls : Nat
  sleeps : List Nat
  lastErr : Option String

/-- The retry loop of `call_llm`: attempts are numbered from 0; a failed
attempt records the exception and sleeps `1 + attempt` seconds; a
successful attempt returns its text immediately. -/
def call_llm_go (svc : Nat → Except String String) :
    Nat → Nat → Option String → CallTrace
  | 0, _, last => ⟨none, 0, [], last⟩
  | n + 1, attempt, last =>
    match svc attempt with
    | .ok s => ⟨some s, 1, [], last⟩
    | .error e =>
      let t := call_llm_go svc n (attempt + 1) (some e)
      ⟨t.result, t.calls + 1, (1 + attempt) :: t.sleeps, t.lastErr⟩

/-- `call_llm` from src/app.py.  The external completion service is an
oracle taking the prompt, model name, temperature and attempt index and
returning text or an error; `clientPresent` is whether the module-level
`client` was initialized from a configured key.  When it is `false` the
function returns `None` before any attempt. -/
def call_llm {α : Type} (clientPresent : Bool)
    (svc : String → String → α → Nat → Except String String)
    (prompt modelName : String) (temperature : α) (tries : Nat) : CallTrace :=
  if clientPresent then call_llm_go (svc prompt modelName temperature) tries 0 none
  else ⟨none, 0, [], none⟩

/-- The inline fallback demo document of `generate_teardown`: static
except that `strategy[0]` interpolates the lowercased industry key, the
second `ux_teardown` item depends on the user-flow toggle, and
`one_pager` interpolates the product text. -/
def demoDoc (product_text industry_key : String) (include_user_flow : Bool) : Json :=
  Json.obj
    [("strategy", Json.arr
        [Json.str ("Position as fast, low-friction " ++ industry_key.toLower ++ " product"),
         Json.str "Target mass market and power users",
         Json.str "Monetize via freemium and transactional fees"]),
     ("growth_loops", Json.arr
        [Json.str "Referral loop: user invites friend -> both get credits (expected +1-3% uplift)",
         Json.str "Merchant incentives: onboarding merchants drives supply"]),
     ("engagement_mechanics", Json.arr
        [Json.str "Onboarding checklist with progress bar",
         Json.str "Daily digest push for key actions"]),
     ("kpis", Json.obj
        [("north_star", Json.str "DAU -> Paid conversion"),
         ("leading_indicators", Json.arr
            [Json.str "activation_rate", Json.str "7d_retention",
             Json.str "week1_cohort_conversion"]),
         ("dashboard_analytics", Json.arr
            [Json.str "signup_rate", Json.str "activation_rate",
             Json.str "revenue_per_user"])]),
     ("ux_teardown", Json.arr
        [Json.str "Clear CTA on home screen -> sample microcopy: \x27Pay in 2 taps\x27",
         Json.str (if include_user_flow then
            "Suggested user flow: [\x27Install\x27, \x27Create account\x27, \x27Onboard payment method\x27, \x27Complete first transaction\x27]"
          else "")]),
     ("swot", Json.obj
        [("strengths", Json.arr [Json.str "Strong UX", Json.str "Partnerships"]),
         ("weaknesses", Json.arr [Json.str "Customer acquisition cost"]),
         ("opportunities", Json.arr [Json.str "New monetization"]),
         ("threats", Json.arr [Json.str "Regulatory risk"])]),
     ("opportunities", Json.arr
        [Json.str "Test 1: incentivized referral for transactions",
         Json.str "Test 2: merchant onboarding pilot"]),
     ("one_pager", Json.str (product_text ++ " — Quick product thesis and 3-line exec summary."))]

/-- `generate_teardown` from src/app.py: build the prompt, call the
client with a budget of 3, extract JSON from the raw text when one came
back, and fall back to the demo document when `parsed is None`.  Returns
the document together with the raw text. -/
def generate_teardown {α : Type} (clientPresent : Bool)
    (svc : String → String → α → Nat → Except String String)
    (product_text industry_key depth : String)
    (include_user_flow include_metrics include_templates : Bool)
    (modelName : String) (temperature : α) : Json × Option String :=
  let prompt := build_teardown_prompt product_text industry_key depth
    include_user_flow include_metrics include_templates
  let raw := (call_llm clientPresent svc prompt modelName temperature 3).result
  let parsed :=
    match raw with
    | some r => if r = "" then Json.null else extract_json (some r)
    | none => Json.null
  if parsed.isNull then (demoDoc product_text industry_key include_user_flow, raw)
  else (parsed, raw)

/-- `dict.get(key)` on a parsed document (used by the rendering and
export code in src/app.py); non-dicts have no keys. -/
def Json.get : Json → String → Option Json
  | .obj kvs, k => kvs.lookup k
  | _, _ => none

/-- What may legally follow a serialized JSON value inside a larger
serialized document: nothing, or a separator/closer. -/
def SepOk : List Char → Prop
  | [] => True
  | c :: _ => c = ',' ∨ c = ']' ∨ c = '}'

/-- Well-formed documents: every object has pairwise-distinct keys (the
only values `json.dumps` can faithfully round-trip through a dict). -/
inductive JsonWf : Json → Prop where
  | null : JsonWf .null
  | bool (b : Bool) : JsonWf (.bool b)
  | num (i : Int) : JsonWf (.num i)
  | str (s : String) : JsonWf (.str s)
  | arr (l : List Json) : (∀ x ∈ l, JsonWf x) → JsonWf (.arr l)
  | obj (kvs : List (String × Json)) : (kvs.map Prod.fst).Nodup →
      (∀ kv ∈ kvs, JsonWf kv.2) → JsonWf (.obj kvs)

/-- C6: `extract_json` never raises past its boundary: `None`, the empty
string, and `"no braces here"` each yield the failure signal (`None`,
modelled as `Json.null`), not an exception; the `None`/empty cases take
the initial `if not text` short-circuit. -/
theorem extract_json_failure_signal_edges :
    extract_json none = Json.null ∧
    extract_json (some "") = Json.null ∧
    extract_json (some "no braces here") = Json.null :=
  ⟨rfl, rfl, rfl⟩

/-- C9: on `'{"a": [1, 2,], "b": 3,}'` the strict parse of the full text
fails, the outermost-brace candidate (the whole text) also fails, and
only then does the single trailing-comma normalization pass run, after
which the one retried parse returns `{"a": [1, 2], "b": 3}`, which is
what `extract_json` returns. -/
theorem extract_json_trailing_comma_repair :
    json_loads_chars (fenceCandidate ("\x7b\"a\": [1, 2,], \"b\": 3,\x7d").data) = none ∧
    braceSlice ("\x7b\"a\": [1, 2,], \"b\": 3,\x7d").data =
      some ("\x7b\"a\": [1, 2,], \"b\": 3,\x7d").data ∧
    json_loads_chars ("\x7b\"a\": [1, 2,], \"b\": 3,\x7d").data = none ∧
    stripTrailingCommas ("\x7b\"a\": [1, 2,], \"b\": 3,\x7d").data =
      ("\x7b\"a\": [1, 2], \"b\": 3\x7d").data ∧
    json_loads_chars ("\x7b\"a\": [1, 2], \"b\": 3\x7d").data =
      some (Json.obj [("a", Json.arr [Json.num 1, Json.num 2]), ("b", Json.num 3)]) ∧
    extract_json (some "\x7b\"a\": [1, 2,], \"b\": 3,\x7d") =
      Json.obj [("a", Json.arr [Json.num 1, Json.num 2]), ("b", Json.num 3)] :=
  ⟨rfl, rfl, rfl, rfl, rfl, rfl⟩

/-- C1: `extract_json` follows the ordered fallback chain and stops at
the first success: the fenced content (when the fence regex matches)
replaces the text; a successful strict parse of that candidate is
returned as is; otherwise the first-`{`-to-last-`}` substring is parsed;
otherwise the one trailing-comma pass is applied and the parse retried
once; otherwise the failure signal comes back.  Each conjunct pins the
output for one prefix of the chain. -/
theorem extract_json_fallback_chain (s : String) :
    (∀ v, json_loads_chars (fenceCandidate s.data) = some v →
       extract_json (some s) = v) ∧
    (json_loads_chars (fenceCandidate s.data) = none →
      ∀ cand, braceSlice (fenceCandidate s.data) = some cand →
        ∀ v, json_loads_chars cand = some v → extract_json (some s) = v) ∧
    (json_loads_chars (fenceCandidate s.data) = none →
      ∀ cand, braceSlice (fenceCandidate s.data) = some cand →
        json_loads_chars cand = none →
        ∀ v, json_loads_chars (stripTrailingCommas cand) = some v →
          extract_json (some s) = v) ∧
    (json_loads_chars (fenceCandidate s.data) = none →
      braceSlice (fenceCandidate s.data) = none →
        extract_json (some s) = Json.null) ∧
    (json_loads_chars (fenceCandidate s.data) = none →
      ∀ cand, braceSlice (fenceCandidate s.data) = some cand →
        json_loads_chars cand = none →
        json_loads_chars (stripTrailingCommas cand) = none →
          extract_json (some s) = Json.null) := by
  by_cases hs : s = ""
  · subst hs
    have hbs : braceSlice (fenceCandidate ("" : String).data) = none := rfl
    refine ⟨?_, ?_, ?_, fun _ _ => rfl, ?_⟩
    · intro v hv
      have hnone : json_loads_chars (fenceCandidate ("" : String).data) = none := rfl
      rw [hnone] at hv
      exact Option.noConfusion hv
    · intro _ cand hc
      rw [hbs] at hc
      exact Option.noConfusion hc
    · intro _ cand hc
      rw [hbs] at hc
      exact Option.noConfusion hc
    · intro _ cand hc
      rw [hbs] at hc
      exact Option.noConfusion hc
  · have key : extract_json (some s) =
        (match json_loads_chars (fenceCandidate s.data) with
         | some v => v
         | none =>
           match braceSlice (fenceCandidate s.data) with
           | some candidate =>
             match json_loads_chars candidate with
             | some v => v
             | none =>
               match json_loads_chars (stripTrailingCommas candidate) with
               | some v => v
               | none => Json.null
           | none => Json.null) := by
      simp only [extract_json]
      rw [if_neg hs]
    have key2 : ∀ cand, json_loads_chars (fenceCandidate s.data) = none →
        braceSlice (fenceCandidate s.data) = some cand →
        extract_json (some s) =
          (match json_loads_chars cand with
           | some v => v
           | none =>
             match json_loads_chars (stripTrailingCommas cand) with
             | some v => v
             | none => Json.null) := by
      intro cand h0 hc
      rw [key, h0, hc]
    refine ⟨?_, ?_, ?_, ?_, ?_⟩
    · intro v hv; rw [key, hv]
    · intro h0 cand hc v hv; rw [key2 cand h0 hc, hv]
    · intro h0 cand hc h1 v hv; rw [key2 cand h0 hc, h1, hv]
    · intro h0 hb; rw [key, h0, hb]
    · intro h0 cand hc h1 h2; rw [key2 cand h0 hc, h1, h2]

/-- Witness for C1: the chain's first step applied at a concrete input
whose candidate parses directly. -/
theorem extract_json_fallback_chain_witness :
    extract_json (some "\x7b\"a\": 1\x7d") = Json.obj [("a", Json.num 1)] :=
  (extract_json_fallback_chain "\x7b\"a\": 1\x7d").1 _ rfl

/-- A found index points at a matching element. -/
theorem findIdx?_drop_head {p : Char → Bool} :
    ∀ (l : List Char) (i : Nat), List.findIdx? p l = some i →
      ∃ c t, l.drop i = c :: t ∧ p c = true := by
  intro l
  induction l with
  | nil => intro i h; simp at h
  | cons x xs ih =>
    intro i h
    rw [List.findIdx?_cons] at h
    by_cases hp : p x
    · rw [if_pos hp] at h
      obtain rfl : i = 0 := by simpa using h.symm
      exact ⟨x, xs, rfl, hp⟩
    · rw [if_neg hp, List.findIdx?_succ] at h
      obtain ⟨j, hj, rfl⟩ := Option.map_eq_some'.mp h
      exact ih j hj

/-- An extracted outermost-brace candidate starts with the brace. -/
theorem braceSlice_head (l cand : List Char) (h : braceSlice l = some cand) :
    ∃ t, cand = '{' :: t := by
  unfold braceSlice at h
  split at h
  · next s e hfind hlast =>
    split at h
    · next hlt =>
      obtain ⟨c, t, hdrop, hc⟩ := findIdx?_drop_head l s hfind
      obtain rfl : c = '{' := by simpa using hc
      obtain rfl : cand = (l.drop s).take (e - s + 1) := by simpa using h.symm
      rw [hdrop]
      exact ⟨t.take (e - s), by simp [List.take_succ_cons]⟩
    · exact Option.noConfusion h
  · exact Option.noConfusion h

/-- The comma-stripping pass keeps a leading brace. -/
theorem stripTrailingCommas_head_brace (t : List Char) :
    ∃ t2, stripTrailingCommas ('{' :: t) = '{' :: t2 :=
  ⟨stripCommasFuel (t.length + 1) t, by simp [stripTrailingCommas, stripCommasFuel]⟩

/-- `parseMemTail` only ever produces objects. -/
theorem parseMemTail_isObj :
    ∀ (f : Nat) (l : List Char) (acc : List (String × Json)) (v : Json) (r : List Char),
      parseMemTail f l acc = some (v, r) → v.isObj = true := by
  intro f
  induction f with
  | zero => intro l acc v r h; exact Option.noConfusion h
  | succ n ih =>
    intro l acc v r h
    unfold parseMemTail at h
    split at h
    · obtain ⟨h1, -⟩ : Json.obj (mkObj acc.reverse) = v ∧ _ = r := by simpa using h
      rw [← h1]; rfl
    · split at h
      · split at h
        · split at h
          · split at h
            · exact ih _ _ _ _ h
            · exact Option.noConfusion h
          · exact Option.noConfusion h
        · exact Option.noConfusion h
      · exact Option.noConfusion h
    · exact Option.noConfusion h

/-- A successful parse of input starting with `{` yields an object. -/
theorem parseVal_brace_isObj (f : Nat) (t : List Char) (v : Json) (r : List Char)
    (h : parseVal f ('{' :: t) = some (v, r)) : v.isObj = true := by
  cases f with
  | zero => exact Option.noConfusion h
  | succ n =>
    have h : (match skipWs t with
        | '}' :: r => some (Json.obj [], r)
        | '"' :: r =>
          match parseString r [] with
          | some (k, r1) =>
            match skipWs r1 with
            | ':' :: r2 =>
              match parseVal n (skipWs r2) with
              | some (v, r3) => parseMemTail n r3 [(k, v)]
              | none => none
            | _ => none
          | none => none
        | _ => none) = some (v, r) := h
    split at h
    · obtain ⟨h1, -⟩ : Json.obj [] = v ∧ _ = r := by simpa using h
      rw [← h1]; rfl
    · split at h
      · split at h
        · split at h
          · exact parseMemTail_isObj _ _ _ _ _ h
          · exact Option.noConfusion h
        · exact Option.noConfusion h
      · exact Option.noConfusion h
    · exact Option.noConfusion h

/-- A successful `json.loads` of text starting with `{` is an object. -/
theorem json_loads_chars_brace_isObj (t : List Char) (v : Json)
    (h : json_loads_chars ('{' :: t) = some v) : v.isObj = true := by
  unfold json_loads_chars at h
  have hsw : skipWs ('{' :: t) = '{' :: t := by
    simp [skipWs, List.dropWhile_cons, jsonWs]
  rw [hsw] at h
  have h : (match parseVal (('{' :: t).length + 1) ('{' :: t) with
      | some (w, r) => if skipWs r = [] then some w else none
      | none => none) = some v := h
  rcases hp : parseVal (('{' :: t).length + 1) ('{' :: t) with _ | ⟨w, r⟩
  · rw [hp] at h; exact Option.noConfusion h
  · rw [hp] at h
    have h2 : skipWs r = [] ∧ w = v := by simpa using h
    exact h2.2 ▸ parseVal_brace_isObj _ _ _ _ hp

/-- C2 counterexample: `extract_json` happily returns arrays.  A bare
array text parses at the direct-parse step and is returned as is, and an
array-only fenced block wins even when an object is findable in the
surrounding text (the fence regex itself accepts `\[.*\]`). -/
theorem extract_json_array_counterexample :
    extract_json (some "[1, 2]") = Json.arr [Json.num 1, Json.num 2] ∧
    (extract_json (some "[1, 2]")).isObj = false ∧
    extract_json (some "```json [1] ``` \x7b\"a\": 1\x7d") = Json.arr [Json.num 1] ∧
    json_loads "\x7b\"a\": 1\x7d" = some (Json.obj [("a", Json.num 1)]) :=
  ⟨rfl, rfl, rfl, rfl⟩

/-- C2 amended: only the outermost-brace fallback path guarantees an
object.  When the direct strict parse of the (fenced or full) candidate
fails and extraction still succeeds, the value came from a candidate
that starts with `{` and is therefore a JSON object; the direct-parse
step itself may return arrays (or any other JSON value). -/
theorem extract_json_brace_path_is_object (s : String) (v : Json)
    (hdirect : json_loads_chars (fenceCandidate s.data) = none)
    (hres : extract_json (some s) = v) (hne : v ≠ Json.null) :
    v.isObj = true := by
  by_cases hs : s = ""
  · subst hs
    rw [show extract_json (some "") = Json.null from rfl] at hres
    exact absurd hres.symm hne
  · simp only [extract_json] at hres
    rw [if_neg hs, hdirect] at hres
    rcases hb : braceSlice (fenceCandidate s.data) with _ | cand
    · rw [hb] at hres
      exact absurd hres.symm hne
    · rw [hb] at hres
      obtain ⟨t, rfl⟩ := braceSlice_head _ _ hb
      have hres2 : (match json_loads_chars ('{' :: t) with
          | some v => v
          | none =>
            match json_loads_chars (stripTrailingCommas ('{' :: t)) with
            | some v => v
            | none => Json.null) = v := hres
      rcases hp : json_loads_chars ('{' :: t) with _ | w
      · rw [hp] at hres2
        obtain ⟨t2, ht2⟩ := stripTrailingCommas_head_brace t
        rcases hq : json_loads_chars (stripTrailingCommas ('{' :: t)) with _ | w2
        · rw [hq] at hres2
          exact absurd hres2.symm hne
        · rw [hq] at hres2
          rw [ht2] at hq
          exact hres2 ▸ json_loads_chars_brace_isObj _ _ hq
      · rw [hp] at hres2
        exact hres2 ▸ json_loads_chars_brace_isObj _ _ hp

/-- Witness for the amended C2: a concrete text whose direct parse fails
and whose brace-path extraction yields an object. -/
theorem extract_json_brace_path_is_object_witness :
    (extract_json (some "x \x7b\"a\": 1\x7d")).isObj = true :=
  extract_json_brace_path_is_object "x \x7b\"a\": 1\x7d" (Json.obj [("a", Json.num 1)])
    rfl rfl (fun h => Json.noConfusion h)

/-- C3 counterexample: the verbosity fallback for a depth outside the
fixed lookup is the empty string, not a generic "detailed analysis"
clause; compare the clause a known depth produces. -/
theorem depth_to_instruction_fallback_counterexample :
    depth_to_instruction "Thorough (exhaustive)" = "" ∧
    depth_to_instruction "Standard (detailed)" =
      "Provide structured analysis with 4-8 bullets per section and short rationale sentences." :=
  ⟨rfl, rfl⟩

/-- C3 amended: the prompt builder is pure and deterministic, never
raises, and maps every depth outside the fixed lookup to the empty
verbosity clause and every industry key outside the static mapping to
the empty hint. -/
theorem build_teardown_prompt_deterministic_total :
    (∀ pt ik d uf im it,
      build_teardown_prompt pt ik d uf im it = build_teardown_prompt pt ik d uf im it) ∧
    (∀ d, d ≠ "Quick (bullets)" → d ≠ "Standard (detailed)" → d ≠ "Deep (comprehensive)" →
      depth_to_instruction d = "") ∧
    (∀ k, k ∉ INDUSTRY_TEMPLATES.map Prod.fst → industryHint k = "") := by
  refine ⟨fun _ _ _ _ _ _ => rfl, ?_, ?_⟩
  · intro d h1 h2 h3
    simp [depth_to_instruction, List.lookup, beq_eq_false_iff_ne.mpr h1,
      beq_eq_false_iff_ne.mpr h2, beq_eq_false_iff_ne.mpr h3]
  · intro k hk
    simp only [INDUSTRY_TEMPLATES, List.map, List.mem_cons, List.not_mem_nil, or_false] at hk
    push_neg at hk
    obtain ⟨h1, h2, h3, h4, h5, h6⟩ := hk
    simp [industryHint, INDUSTRY_TEMPLATES, List.lookup, beq_eq_false_iff_ne.mpr h1,
      beq_eq_false_iff_ne.mpr h2, beq_eq_false_iff_ne.mpr h3, beq_eq_false_iff_ne.mpr h4,
      beq_eq_false_iff_ne.mpr h5, beq_eq_false_iff_ne.mpr h6]

/-- Witness for the amended C3 at concrete unknown keys. -/
theorem build_teardown_prompt_deterministic_total_witness :
    depth_to_instruction "Casual" = "" ∧ industryHint "Gaming" = "" :=
  ⟨build_teardown_prompt_deterministic_total.2.1 "Casual" (by decide) (by decide) (by decide),
   build_teardown_prompt_deterministic_total.2.2 "Gaming" (by decide)⟩

/-- C7 counterexample: with an attempt budget of 1 and an always-failing
service there is a single attempt and no pair of attempts to sleep
between, yet one backoff sleep (1 second) still happens — the code
sleeps after every failed attempt, including the last. -/
theorem call_llm_sleep_after_last_attempt :
    (call_llm true (fun _ _ _ _ => (Except.error "boom" : Except String String))
      "p" "m" () 1).calls = 1 ∧
    (call_llm true (fun _ _ _ _ => (Except.error "boom" : Except String String))
      "p" "m" () 1).sleeps = [1] :=
  ⟨rfl, rfl⟩

/-- With an always-failing service, the retry loop runs its whole
budget: no result, one call and one sleep (of `1 + attempt` seconds) per
attempt, and the final attempt's error retained. -/
theorem call_llm_go_all_fail (svc : Nat → Except String String) (ef : Nat → String)
    (hf : ∀ i, svc i = .error (ef i)) :
    ∀ (n a : Nat) (last : Option String), call_llm_go svc n a last =
      ⟨none, n, (List.range n).map (fun i => 1 + (a + i)),
       if n = 0 then last else some (ef (a + n - 1))⟩ := by
  intro n
  induction n with
  | zero => intro a last; rfl
  | succ m ih =>
    intro a last
    simp only [call_llm_go, hf a, ih (a + 1) (some (ef a)), CallTrace.mk.injEq]
    refine ⟨trivial, trivial, ?_, ?_⟩
    · rw [List.range_succ_eq_map, List.map_cons, List.map_map]
      refine congrArg₂ List.cons (by simp) ?_
      exact congrArg (fun h => List.map h (List.range m))
        (funext fun i => by simp only [Function.comp_apply, Nat.succ_eq_add_one]; omega)
    · rw [if_neg (Nat.succ_ne_zero m)]
      cases m with
      | zero => simp
      | succ p =>
        rw [if_neg (Nat.succ_ne_zero p)]
        exact congrArg some (congrArg ef (by omega))

/-- With a service failing on the first `m` attempts and succeeding on
attempt `m` (0-based), a budget of at least `m + 1` yields the success
text after exactly `m + 1` calls and `m` sleeps. -/
theorem call_llm_go_succeeds (svc : Nat → Except String String) (ef : Nat → String)
    (txt : String) :
    ∀ (m n a : Nat) (last : Option String),
      (∀ i, i < m → svc (a + i) = .error (ef (a + i))) →
      svc (a + m) = .ok txt → m + 1 ≤ n →
      call_llm_go svc n a last =
        ⟨some txt, m + 1, (List.range m).map (fun i => 1 + (a + i)),
         if m = 0 then last else some (ef (a + m - 1))⟩ := by
  intro m
  induction m with
  | zero =>
    intro n a last _ hok hn
    obtain ⟨n', rfl⟩ : ∃ n', n = n' + 1 := ⟨n - 1, by omega⟩
    have hok' : svc a = .ok txt := by simpa using hok
    simp [call_llm_go, hok']
  | succ p ih =>
    intro n a last hf hok hn
    obtain ⟨n', rfl⟩ : ∃ n', n = n' + 1 := ⟨n - 1, by omega⟩
    have h0 : svc a = .error (ef a) := by simpa using hf 0 (by omega)
    have hf' : ∀ i, i < p → svc (a + 1 + i) = .error (ef (a + 1 + i)) := by
      intro i hi
      have := hf (i + 1) (by omega)
      rwa [show a + (i + 1) = a + 1 + i by omega] at this
    have hok' : svc (a + 1 + p) = .ok txt := by
      rwa [show a + (p + 1) = a + 1 + p by omega] at hok
    simp only [call_llm_go, h0, ih n' (a + 1) (some (ef a)) hf' hok' (by omega),
      CallTrace.mk.injEq]
    refine ⟨trivial, trivial, ?_, ?_⟩
    · rw [List.range_succ_eq_map, List.map_cons, List.map_map]
      refine congrArg₂ List.cons (by simp) ?_
      exact congrArg (fun h => List.map h (List.range p))
        (funext fun i => by simp only [Function.comp_apply, Nat.succ_eq_add_one]; omega)
    · rw [if_neg (Nat.succ_ne_zero p)]
      cases p with
      | zero => simp
      | succ q =>
        rw [if_neg (Nat.succ_ne_zero q)]
        exact congrArg some (congrArg ef (by omega))

/-- C4: with any attempt budget `K ≥ 1`, an always-failing service gets
exactly `K` calls and the failure signal comes back; a service failing
on the first `N` attempts and succeeding on attempt `N`, with budget
`K ≥ N + 1`, gets exactly `N + 1` calls and its text is returned — no
call happens after the first success. -/
theorem call_llm_attempt_counting {α : Type}
    (svc : String → String → α → Nat → Except String String)
    (prompt modelName : String) (temp : α) :
    (∀ K, 1 ≤ K → ∀ (ef : Nat → String),
      (∀ i, svc prompt modelName temp i = .error (ef i)) →
      (call_llm true svc prompt modelName temp K).result = none ∧
      (call_llm true svc prompt modelName temp K).calls = K) ∧
    (∀ (N K : Nat) (txt : String) (ef : Nat → String),
      (∀ i, i < N → svc prompt modelName temp i = .error (ef i)) →
      svc prompt modelName temp N = .ok txt → N + 1 ≤ K →
      (call_llm true svc prompt modelName temp K).result = some txt ∧
      (call_llm true svc prompt modelName temp K).calls = N + 1) := by
  constructor
  · intro K _ ef hf
    have h : call_llm true svc prompt modelName temp K =
        call_llm_go (svc prompt modelName temp) K 0 none := rfl
    rw [h, call_llm_go_all_fail (svc prompt modelName temp) ef hf K 0 none]
    exact ⟨rfl, rfl⟩
  · intro N K txt ef hf hok hK
    have h : call_llm true svc prompt modelName temp K =
        call_llm_go (svc prompt modelName temp) K 0 none := rfl
    have hf' : ∀ i, i < N → svc prompt modelName temp (0 + i) =
        .error (ef (0 + i)) := by
      intro i hi; simpa using hf i hi
    have hok' : svc prompt modelName temp (0 + N) = .ok txt := by simpa using hok
    rw [h, call_llm_go_succeeds (svc prompt modelName temp) ef txt
      N K 0 none hf' hok' hK]
    exact ⟨rfl, rfl⟩

/-- Witness for C4: a service failing once then succeeding, with budget
3, returns the text after exactly 2 calls. -/
theorem call_llm_attempt_counting_witness :
    (call_llm true
      (fun _ _ _ i => if i = 0 then (Except.error "boom" : Except String String)
        else Except.ok "hi") "p" "m" () 3).result = some "hi" ∧
    (call_llm true
      (fun _ _ _ i => if i = 0 then (Except.error "boom" : Except String String)
        else Except.ok "hi") "p" "m" () 3).calls = 2 :=
  (call_llm_attempt_counting
      (fun _ _ _ i => if i = 0 then (Except.error "boom" : Except String String)
        else Except.ok "hi") "p" "m" ()).2 1 3 "hi" (fun _ => "boom")
    (fun i hi => by
      have : i = 0 := by omega
      subst this
      rfl)
    rfl (by omega)

/-- C5: a missing credential short-circuits to the failure signal with
zero service calls and zero backoff sleeps; and when the whole budget
fails, the caller receives the failure signal — never an exception, the
model being a total function into text-or-`none` — together with the
last-seen error. -/
theorem call_llm_fail_fast_and_last_error {α : Type} :
    (∀ (svc : String → String → α → Nat → Except String String)
      (prompt modelName : String) (temp : α) (K : Nat),
      call_llm false svc prompt modelName temp K = ⟨none, 0, [], none⟩) ∧
    (∀ (svc : String → String → α → Nat → Except String String)
      (prompt modelName : String) (temp : α) (K : Nat) (ef : Nat → String),
      1 ≤ K → (∀ i, svc prompt modelName temp i = .error (ef i)) →
      (call_llm true svc prompt modelName temp K).result = none ∧
      (call_llm true svc prompt modelName temp K).lastErr = some (ef (K - 1))) := by
  constructor
  · intro svc prompt modelName temp K; rfl
  · intro svc prompt modelName temp K ef hK hf
    have h : call_llm true svc prompt modelName temp K =
        call_llm_go (svc prompt modelName temp) K 0 none := rfl
    rw [h, call_llm_go_all_fail (svc prompt modelName temp) ef hf K 0 none]
    refine ⟨rfl, ?_⟩
    show (if K = 0 then none else some (ef (0 + K - 1))) = some (ef (K - 1))
    rw [if_neg (by omega)]
    exact congrArg some (congrArg ef (by omega))

/-- Witness for C5 with a two-attempt budget over an always-failing
service, surfacing the second attempt's error. -/
theorem call_llm_fail_fast_and_last_error_witness :
    (call_llm true (fun _ _ _ i => (Except.error (toString i) : Except String String))
      "p" "m" () 2).result = none ∧
    (call_llm true (fun _ _ _ i => (Except.error (toString i) : Except String String))
      "p" "m" () 2).lastErr = some "1" :=
  (call_llm_fail_fast_and_last_error.2
    (fun _ _ _ i => (Except.error (toString i) : Except String String))
    "p" "m" () 2 (fun i => toString i) (by omega) (fun i => rfl))

/-- C7 amended: the backoff after failed attempt `i` (0-based) lasts
`1 + i` seconds — linear and strictly increasing over the attempts of a
run — but a sleep follows every failed attempt including the final one
(so not only between attempts), and no sleep follows a success. -/
theorem call_llm_linear_backoff {α : Type}
    (svc : String → String → α → Nat → Except String String)
    (prompt modelName : String) (temp : α) :
    (∀ (K : Nat) (ef : Nat → String),
      (∀ i, svc prompt modelName temp i = .error (ef i)) →
      (call_llm true svc prompt modelName temp K).sleeps =
        (List.range K).map (fun i => 1 + i) ∧
      List.Pairwise (· < ·) (call_llm true svc prompt modelName temp K).sleeps) ∧
    (∀ (N K : Nat) (txt : String) (ef : Nat → String),
      (∀ i, i < N → svc prompt modelName temp i = .error (ef i)) →
      svc prompt modelName temp N = .ok txt → N + 1 ≤ K →
      (call_llm true svc prompt modelName temp K).sleeps =
        (List.range N).map (fun i => 1 + i)) := by
  have hmap : ∀ n : Nat, (List.range n).map (fun i => 1 + (0 + i)) =
      (List.range n).map (fun i => 1 + i) :=
    fun n => congrArg (fun h => List.map h (List.range n)) (funext fun i => by omega)
  constructor
  · intro K ef hf
    have h : call_llm true svc prompt modelName temp K =
        call_llm_go (svc prompt modelName temp) K 0 none := rfl
    rw [h, call_llm_go_all_fail (svc prompt modelName temp) ef hf K 0 none]
    refine ⟨hmap K, ?_⟩
    show List.Pairwise (· < ·) ((List.range K).map (fun i => 1 + (0 + i)))
    exact (List.pairwise_lt_range K).map _ (fun a b hab => by omega)
  · intro N K txt ef hf hok hK
    have h : call_llm true svc prompt modelName temp K =
        call_llm_go (svc prompt modelName temp) K 0 none := rfl
    have hf' : ∀ i, i < N → svc prompt modelName temp (0 + i) =
        .error (ef (0 + i)) := by
      intro i hi; simpa using hf i hi
    have hok' : svc prompt modelName temp (0 + N) = .ok txt := by simpa using hok
    rw [h, call_llm_go_succeeds (svc prompt modelName temp) ef txt
      N K 0 none hf' hok' hK]
    exact hmap N

/-- Witness for the amended C7: three failing attempts sleep 1, 2, 3
seconds. -/
theorem call_llm_linear_backoff_witness :
    (call_llm true (fun _ _ _ _ => (Except.error "boom" : Except String String))
      "p" "m" () 3).sleeps = [1, 2, 3] := by
  have h := (call_llm_linear_backoff
    (fun _ _ _ _ => (Except.error "boom" : Except String String)) "p" "m" ()).1
    3 (fun _ => "boom") (fun i => rfl)
  rw [h.1]
  rfl

/-- A non-`None` value is not the failure signal. -/
theorem Json.isNull_eq_false {v : Json} (h : v ≠ Json.null) : v.isNull = false := by
  cases v <;> first | exact absurd rfl h | rfl

/-- When the completion client returns nothing, `generate_teardown`
returns the demo document paired with the `None` raw text. -/
theorem generate_teardown_raw_none {α : Type} (clientPresent : Bool)
    (svc : String → String → α → Nat → Except String String)
    (product_text industry_key depth : String)
    (include_user_flow include_metrics include_templates : Bool)
    (modelName : String) (temperature : α)
    (hA : (call_llm clientPresent svc
      (build_teardown_prompt product_text industry_key depth include_user_flow
        include_metrics include_templates) modelName temperature 3).result = none) :
    generate_teardown clientPresent svc product_text industry_key depth
      include_user_flow include_metrics include_templates modelName temperature =
      (demoDoc product_text industry_key include_user_flow, none) := by
  have key : generate_teardown clientPresent svc product_text industry_key depth
      include_user_flow include_metrics include_templates modelName temperature =
      (if (match (call_llm clientPresent svc
            (build_teardown_prompt product_text industry_key depth include_user_flow
              include_metrics include_templates) modelName temperature 3).result with
          | some r => if r = "" then Json.null else extract_json (some r)
          | none => Json.null).isNull
       then (demoDoc product_text industry_key include_user_flow,
         (call_llm clientPresent svc
            (build_teardown_prompt product_text industry_key depth include_user_flow
              include_metrics include_templates) modelName temperature 3).result)
       else ((match (call_llm clientPresent svc
            (build_teardown_prompt product_text industry_key depth include_user_flow
              include_metrics include_templates) modelName temperature 3).result with
          | some r => if r = "" then Json.null else extract_json (some r)
          | none => Json.null),
         (call_llm clientPresent svc
            (build_teardown_prompt product_text industry_key depth include_user_flow
              include_metrics include_templates) modelName temperature 3).result)) := rfl
  rw [key, hA]
  rfl

/-- When the completion client returns text `r`, `generate_teardown`
returns either the extraction result or the demo document, always
paired with `some r`. -/
theorem generate_teardown_raw_some {α : Type} (clientPresent : Bool)
    (svc : String → String → α → Nat → Except String String)
    (product_text industry_key depth : String)
    (include_user_flow include_metrics include_templates : Bool)
    (modelName : String) (temperature : α) (r : String)
    (hA : (call_llm clientPresent svc
      (build_teardown_prompt product_text industry_key depth include_user_flow
        include_metrics include_templates) modelName temperature 3).result = some r) :
    generate_teardown clientPresent svc product_text industry_key depth
      include_user_flow include_metrics include_templates modelName temperature =
      (if (if r = "" then Json.null else extract_json (some r)).isNull
       then (demoDoc product_text industry_key include_user_flow, some r)
       else ((if r = "" then Json.null else extract_json (some r)), some r)) := by
  have key : generate_teardown clientPresent svc product_text industry_key depth
      include_user_flow include_metrics include_templates modelName temperature =
      (if (match (call_llm clientPresent svc
            (build_teardown_prompt product_text industry_key depth include_user_flow
              include_metrics include_templates) modelName temperature 3).result with
          | some r => if r = "" then Json.null else extract_json (some r)
          | none => Json.null).isNull
       then (demoDoc product_text industry_key include_user_flow,
         (call_llm clientPresent svc
            (build_teardown_prompt product_text industry_key depth include_user_flow
              include_metrics include_templates) modelName temperature 3).result)
       else ((match (call_llm clientPresent svc
            (build_teardown_prompt product_text industry_key depth include_user_flow
              include_metrics include_templates) modelName temperature 3).result with
          | some r => if r = "" then Json.null else extract_json (some r)
          | none => Json.null),
         (call_llm clientPresent svc
            (build_teardown_prompt product_text industry_key depth include_user_flow
              include_metrics include_templates) modelName temperature 3).result)) := rfl
  rw [key, hA]

/-- C10: `generate_teardown` never returns a `None` document: whenever
the completion call yields no text, empty text, or text from which no
value is extracted, the built-in demo document is returned, and the raw
text is passed through unchanged in every case.  The demo document is
not fully static: its `one_pager` field interpolates the product text
and its `strategy` head interpolates the lowercased industry key, so it
has the same shape as a successfully extracted document. -/
theorem generate_teardown_demo_fallback {α : Type} (clientPresent : Bool)
    (svc : String → String → α → Nat → Except String String)
    (product_text industry_key depth : String)
    (include_user_flow include_metrics include_templates : Bool)
    (modelName : String) (temperature : α) :
    ((generate_teardown clientPresent svc product_text industry_key depth
        include_user_flow include_metrics include_templates modelName
        temperature).1 ≠ Json.null) ∧
    ((generate_teardown clientPresent svc product_text industry_key depth
        include_user_flow include_metrics include_templates modelName
        temperature).2 =
      (call_llm clientPresent svc
        (build_teardown_prompt product_text industry_key depth include_user_flow
          include_metrics include_templates) modelName temperature 3).result) ∧
    ((call_llm clientPresent svc
        (build_teardown_prompt product_text industry_key depth include_user_flow
          include_metrics include_templates) modelName temperature 3).result = none →
      generate_teardown clientPresent svc product_text industry_key depth
        include_user_flow include_metrics include_templates modelName temperature =
        (demoDoc product_text industry_key include_user_flow, none)) ∧
    (∀ r, (call_llm clientPresent svc
        (build_teardown_prompt product_text industry_key depth include_user_flow
          include_metrics include_templates) modelName temperature 3).result = some r →
      extract_json (some r) = Json.null →
      generate_teardown clientPresent svc product_text industry_key depth
        include_user_flow include_metrics include_templates modelName temperature =
        (demoDoc product_text industry_key include_user_flow, some r)) ∧
    (∀ r, (call_llm clientPresent svc
        (build_teardown_prompt product_text industry_key depth include_user_flow
          include_metrics include_templates) modelName temperature 3).result = some r →
      r ≠ "" → extract_json (some r) ≠ Json.null →
      generate_teardown clientPresent svc product_text industry_key depth
        include_user_flow include_metrics include_templates modelName temperature =
        (extract_json (some r), some r)) ∧
    ((demoDoc product_text industry_key include_user_flow).get "one_pager" =
      some (Json.str (product_text ++ " — Quick product thesis and 3-line exec summary."))) ∧
    ((demoDoc product_text industry_key include_user_flow).get "strategy" =
      some (Json.arr
        [Json.str ("Position as fast, low-friction " ++ industry_key.toLower ++ " product"),
         Json.str "Target mass market and power users",
         Json.str "Monetize via freemium and transactional fees"])) := by
  refine ⟨?_, ?_, ?_, ?_, ?_, rfl, rfl⟩
  · rcases hA : (call_llm clientPresent svc
        (build_teardown_prompt product_text industry_key depth include_user_flow
          include_metrics include_templates) modelName temperature 3).result with _ | r
    · rw [generate_teardown_raw_none _ _ _ _ _ _ _ _ _ _ hA]
      exact fun hcon => Json.noConfusion hcon
    · rw [generate_teardown_raw_some _ _ _ _ _ _ _ _ _ _ r hA]
      by_cases hr : r = ""
      · rw [if_pos hr]
        exact fun hcon => Json.noConfusion hcon
      · rw [if_neg hr]
        by_cases hn : extract_json (some r) = Json.null
        · rw [hn]
          exact fun hcon => Json.noConfusion hcon
        · rw [Json.isNull_eq_false hn]
          exact fun hcon => hn hcon
  · rcases hA : (call_llm clientPresent svc
        (build_teardown_prompt product_text industry_key depth include_user_flow
          include_metrics include_templates) modelName temperature 3).result with _ | r
    · rw [generate_teardown_raw_none _ _ _ _ _ _ _ _ _ _ hA]
    · rw [generate_teardown_raw_some _ _ _ _ _ _ _ _ _ _ r hA,
        apply_ite Prod.snd]
      simp
  · intro hA
    exact generate_teardown_raw_none _ _ _ _ _ _ _ _ _ _ hA
  · intro r hA hnull
    rw [generate_teardown_raw_some _ _ _ _ _ _ _ _ _ _ r hA]
    by_cases hr : r = ""
    · rw [if_pos hr]
      rfl
    · rw [if_neg hr, hnull]
      rfl
  · intro r hA hr hnn
    rw [generate_teardown_raw_some _ _ _ _ _ _ _ _ _ _ r hA, if_neg hr,
      Json.isNull_eq_false hnn]
    rfl

/-- Witness for C10: with no credential the client yields nothing and
the demo document comes back with `None` raw text. -/
theorem generate_teardown_demo_fallback_witness :
    generate_teardown false (fun _ _ _ _ => (Except.error "e" : Except String String))
      "Google Pay" "FinTech" "Standard (detailed)" true true true "gpt-4o-mini" () =
      (demoDoc "Google Pay" "FinTech" true, none) :=
  (generate_teardown_demo_fallback false
    (fun _ _ _ _ => (Except.error "e" : Except String String))
    "Google Pay" "FinTech" "Standard (detailed)" true true true
    "gpt-4o-mini" ()).2.2.1 rfl

/-- Serialized digits are digit characters. -/
theorem natToCharsFuel_all_digits :
    ∀ (f n : Nat), n < f → ∀ c ∈ natToCharsFuel f n, isDigitChar c = true := by
  intro f
  induction f with
  | zero => intro n h; omega
  | succ m ih =>
    intro n h c hc
    simp only [natToCharsFuel] at hc
    by_cases h10 : n < 10
    · rw [if_pos h10] at hc
      obtain rfl : c = Char.ofNat (48 + n) := by simpa using hc
      interval_cases n <;> decide
    · rw [if_neg h10] at hc
      rcases List.mem_append.mp hc with h1 | h2
      · exact ih (n / 10) (by omega) c h1
      · obtain rfl : c = Char.ofNat (48 + n % 10) := by simpa using h2
        have hm : n % 10 < 10 := by omega
        interval_cases hh : (n % 10) <;> decide

/-- The digit list of a number is never empty. -/
theorem natToCharsFuel_ne_nil (f n : Nat) (h : n < f) : natToCharsFuel f n ≠ [] := by
  cases f with
  | zero => omega
  | succ m =>
    simp only [natToCharsFuel]
    split
    · simp
    · simp

/-- A positive number's digits never start with zero. -/
theorem natToCharsFuel_head_ne_zero :
    ∀ (f n : Nat), 1 ≤ n → n < f → ∀ c t, natToCharsFuel f n = c :: t → c ≠ '0' := by
  intro f
  induction f with
  | zero => intro n h1 h2; omega
  | succ m ih =>
    intro n h1 h2 c t hct
    simp only [natToCharsFuel] at hct
    by_cases h10 : n < 10
    · rw [if_pos h10] at hct
      obtain ⟨rfl, -⟩ : Char.ofNat (48 + n) = c ∧ ([] : List Char) = t := by
        simpa using hct
      interval_cases n <;> decide
    · rw [if_neg h10] at hct
      rcases hA : natToCharsFuel m (n / 10) with _ | ⟨c0, t0⟩
      · exact absurd hA (natToCharsFuel_ne_nil m (n / 10) (by omega))
      · rw [hA, List.cons_append] at hct
        obtain ⟨rfl, -⟩ : c0 = c ∧ t0 ++ [Char.ofNat (48 + n % 10)] = t := by
          simpa using hct
        exact ih (n / 10) (by omega) (by omega) c0 t0 hA

/-- Folding the digit-accumulator over serialized digits recovers the
number (with the accumulator shifted by the digit count). -/
theorem foldl_digits_natToCharsFuel :
    ∀ (f n a : Nat), n < f →
      (natToCharsFuel f n).foldl (fun a c => 10 * a + (c.toNat - 48)) a =
        a * 10 ^ (natToCharsFuel f n).length + n := by
  intro f
  induction f with
  | zero => intro n a h; omega
  | succ m ih =>
    intro n a h
    simp only [natToCharsFuel]
    by_cases h10 : n < 10
    · rw [if_pos h10]
      have hv : (Char.ofNat (48 + n)).toNat = 48 + n := by
        interval_cases n <;> decide
      simp [List.foldl, hv]
      omega
    · rw [if_neg h10]
      rw [List.foldl_append, ih (n / 10) a (by omega)]
      have hv : (Char.ofNat (48 + n % 10)).toNat = 48 + n % 10 := by
        have hm : n % 10 < 10 := by omega
        interval_cases hh : (n % 10) <;> decide
      simp only [List.foldl, List.length_append, List.length_cons, List.length_nil, hv]
      have hdm : 10 * (n / 10) + n % 10 = n := Nat.div_add_mod n 10
      have e1 : 10 * (a * 10 ^ (natToCharsFuel m (n / 10)).length + n / 10) +
          (48 + n % 10 - 48) =
          a * (10 ^ (natToCharsFuel m (n / 10)).length * 10) +
            (10 * (n / 10) + n % 10) := by
        have : 48 + n % 10 - 48 = n % 10 := by omega
        rw [this]
        ring
      rw [e1, hdm, ← pow_succ]

/-- The serialized digits of `n` fold back to `n`. -/
theorem digitsToNat_natToChars (n : Nat) : digitsToNat (natToChars n) = n := by
  have h := foldl_digits_natToCharsFuel (n + 1) n 0 (by omega)
  simpa [digitsToNat, natToChars] using h

/-- `takeWhile`/`dropWhile` split an all-satisfying prefix off exactly. -/
theorem takeWhile_dropWhile_append {p : Char → Bool} :
    ∀ (A B : List Char), (∀ c ∈ A, p c = true) →
      (∀ c0, B.head? = some c0 → p c0 = false) →
      (A ++ B).takeWhile p = A ∧ (A ++ B).dropWhile p = B := by
  intro A
  induction A with
  | nil =>
    intro B _ hB
    cases B with
    | nil => exact ⟨rfl, rfl⟩
    | cons c0 B2 =>
      have h0 := hB c0 rfl
      constructor
      · simp [List.takeWhile_cons, h0]
      · simp [List.dropWhile_cons, h0]
  | cons a A2 ih =>
    intro B hA hB
    have hpa : p a = true := hA a (List.mem_cons_self a A2)
    obtain ⟨h1, h2⟩ := ih B (fun c hc => hA c (List.mem_cons_of_mem a hc)) hB
    constructor
    · simp [List.takeWhile_cons, hpa, h1]
    · simp [List.dropWhile_cons, hpa, h2]

/-- A legal separator/closer is not a digit and not a float marker. -/
theorem sepOk_head_facts (rest : List Char) (h : SepOk rest) :
    ∀ c0, rest.head? = some c0 →
      isDigitChar c0 = false ∧ c0 ≠ '.' ∧ c0 ≠ 'e' ∧ c0 ≠ 'E' := by
  cases rest with
  | nil => intro c0 h0; exact absurd h0 (by simp)
  | cons c t =>
    intro c0 h0
    obtain rfl : c0 = c := by simpa using h0.symm
    rcases h with h | h | h <;> subst h <;> exact ⟨by decide, by decide, by decide, by decide⟩

/-- Parsing the serialized digits of a valid integer literal body. -/
theorem parseNumCore_spec (d : Char) (ds rest : List Char)
    (hall : ∀ c ∈ d :: ds, isDigitChar c = true)
    (hhead : ¬(d = '0' ∧ ds ≠ []))
    (hsep : SepOk rest) :
    parseNumCore ((d :: ds) ++ rest) = some (digitsToNat (d :: ds), rest) := by
  obtain ⟨ht, hd2⟩ := takeWhile_dropWhile_append (d :: ds) rest hall
    (fun c0 h0 => (sepOk_head_facts rest hsep c0 h0).1)
  have key : parseNumCore ((d :: ds) ++ rest) =
      (match ((d :: ds) ++ rest).takeWhile isDigitChar with
       | [] => none
       | d2 :: ds2 =>
         if d2 = '0' ∧ ds2 ≠ [] then none
         else
           match ((d :: ds) ++ rest).dropWhile isDigitChar with
           | c :: _ =>
             if c = '.' ∨ c = 'e' ∨ c = 'E' then none
             else some (digitsToNat (d2 :: ds2), ((d :: ds) ++ rest).dropWhile isDigitChar)
           | [] => some (digitsToNat (d2 :: ds2), [])) := rfl
  rw [key]
  simp only [ht, hd2]
  rw [if_neg hhead]
  cases rest with
  | nil => rfl
  | cons c0 t0 =>
    obtain ⟨-, h1, h2, h3⟩ := sepOk_head_facts (c0 :: t0) hsep c0 rfl
    have hno : ¬(c0 = '.' ∨ c0 = 'e' ∨ c0 = 'E') := by
      rintro (h | h | h)
      · exact h1 h
      · exact h2 h
      · exact h3 h
    show (if c0 = '.' ∨ c0 = 'e' ∨ c0 = 'E' then none
      else some (digitsToNat (d :: ds), c0 :: t0)) =
      some (digitsToNat (d :: ds), c0 :: t0)
    rw [if_neg hno]

/-- Parsing the serialization of any integer, followed by a legal
separator, yields that integer. -/
theorem parseNum_intToChars (i : Int) (rest : List Char) (hsep : SepOk rest) :
    parseNum (intToChars i ++ rest) = some (Json.num i, rest) := by
  by_cases hi : i < 0
  · have hne : intToChars i = '-' :: natToChars i.natAbs := by
      rw [intToChars, if_pos hi]
    have hall : ∀ c ∈ natToChars i.natAbs, isDigitChar c = true :=
      natToCharsFuel_all_digits (i.natAbs + 1) i.natAbs (by omega)
    rcases hN : natToChars i.natAbs with _ | ⟨d, ds⟩
    · exact absurd hN (natToCharsFuel_ne_nil (i.natAbs + 1) i.natAbs (by omega))
    · rw [hN] at hall
      rw [hne, hN, List.cons_append, List.cons_append]
      have key : parseNum ('-' :: d :: (ds ++ rest)) =
          (parseNumCore ((d :: ds) ++ rest)).map
            (fun p => (Json.num (-(p.1 : Int)), p.2)) := rfl
      rw [key, parseNumCore_spec d ds rest hall ?hh hsep]
      case hh =>
        rintro ⟨rfl, hds⟩
        exact natToCharsFuel_head_ne_zero (i.natAbs + 1) i.natAbs (by omega) (by omega)
          '0' ds hN rfl
      have hval : digitsToNat (d :: ds) = i.natAbs := by
        rw [← hN]; exact digitsToNat_natToChars i.natAbs
      rw [Option.map_some', hval]
      have hcast : -((i.natAbs : Int)) = i := by omega
      rw [hcast]
  · have hne : intToChars i = natToChars i.toNat := by
      rw [intToChars, if_neg hi]
    have hall : ∀ c ∈ natToChars i.toNat, isDigitChar c = true :=
      natToCharsFuel_all_digits (i.toNat + 1) i.toNat (by omega)
    rcases hN : natToChars i.toNat with _ | ⟨d, ds⟩
    · exact absurd hN (natToCharsFuel_ne_nil (i.toNat + 1) i.toNat (by omega))
    · rw [hN] at hall
      have hd : isDigitChar d = true := hall d (List.mem_cons_self d ds)
      rw [hne, hN, List.cons_append]
      have hdm : ¬((d :: (ds ++ rest)).head? = some '-') := by
        intro hcon
        obtain rfl : d = '-' := by simpa using hcon
        exact absurd hd (by decide)
      have key : parseNum (d :: (ds ++ rest)) =
          (parseNumCore ((d :: ds) ++ rest)).map
            (fun p => (Json.num (p.1 : Int), p.2)) := by
        rw [parseNum, if_neg hdm]
        rfl
      rw [key, parseNumCore_spec d ds rest hall ?hh2 hsep]
      case hh2 =>
        rintro ⟨rfl, hds⟩
        rcases Nat.eq_zero_or_pos i.toNat with hz | hpos
        · rw [hz] at hN
          have h01 : natToChars 0 = ['0'] := rfl
          rw [h01] at hN
          obtain ⟨-, h2⟩ : '0' = '0' ∧ ([] : List Char) = ds := by simpa using hN
          exact hds h2.symm
        · exact natToCharsFuel_head_ne_zero (i.toNat + 1) i.toNat hpos (by omega)
            '0' ds hN rfl
      have hval : digitsToNat (d :: ds) = i.toNat := by
        rw [← hN]; exact digitsToNat_natToChars i.toNat
      rw [Option.map_some', hval]
      have hcast : ((i.toNat : Int)) = i := by omega
      rw [hcast]

/-- Serializer hex digits decode to their value. -/
theorem hexVal?_hexDigitChar : ∀ m : Nat, m < 16 → hexVal? (hexDigitChar m) = some m := by
  decide

/-- `escChars` unfolds one character at a time. -/
theorem escChars_cons (c : Char) (l : List Char) :
    escChars (c :: l) = escapeChar c ++ escChars l := rfl

/-- One escape char is at least one character long. -/
theorem escapeChar_length_pos (c : Char) : 1 ≤ (escapeChar c).length := by
  rw [escapeChar]
  split_ifs <;> simp

/-- The parser undoes a `\u00xx` control escape. -/
theorem parseStringAux_u00 (f t : Nat) (ht : t < 32) (r acc : List Char) :
    parseStringAux (f + 1) ('\\' :: 'u' :: '0' :: '0' ::
      hexDigitChar (t / 16) :: hexDigitChar (t % 16) :: r) acc =
      parseStringAux f r (Char.ofNat t :: acc) := by
  interval_cases t <;> rfl

/-- The parser copies an unescaped ordinary character. -/
theorem parseStringAux_ordinary (f : Nat) (c : Char) (h1 : c ≠ '"') (h2 : c ≠ '\\')
    (h3 : ¬(c.toNat < 32)) (r acc : List Char) :
    parseStringAux (f + 1) (c :: r) acc = parseStringAux f r (c :: acc) := by
  conv_lhs => unfold parseStringAux
  rw [if_neg h1, if_neg h2, if_neg h3]

/-- The string-body parser undoes the serializer's escaping, appending
the decoded body to the accumulator and stopping at the closing quote. -/
theorem parseStringAux_escChars :
    ∀ (l : List Char) (f : Nat) (acc rest : List Char),
      (escChars l ++ ('"' :: rest)).length + 1 ≤ f →
      parseStringAux f (escChars l ++ ('"' :: rest)) acc =
        some (String.mk (acc.reverse ++ l), rest) := by
  intro l
  induction l with
  | nil =>
    intro f acc rest hf
    obtain ⟨f2, rfl⟩ : ∃ f2, f = f2 + 1 := ⟨f - 1, by omega⟩
    have key : parseStringAux (f2 + 1) (('"' : Char) :: rest) acc =
        some (String.mk acc.reverse, rest) := rfl
    show parseStringAux (f2 + 1) ('"' :: rest) acc = _
    rw [key]
    simp
  | cons c l2 ih =>
    intro f acc rest hf
    obtain ⟨f2, rfl⟩ : ∃ f2, f = f2 + 1 := ⟨f - 1, by omega⟩
    have hrec : (escChars l2 ++ ('"' :: rest)).length + 1 ≤ f2 := by
      have h1 := escapeChar_length_pos c
      simp only [escChars_cons, List.length_append] at hf ⊢
      omega
    rw [escChars_cons, List.append_assoc]
    by_cases h1 : c = '"'
    · subst h1
      have key : parseStringAux (f2 + 1)
          (escapeChar '"' ++ (escChars l2 ++ '"' :: rest)) acc =
          parseStringAux f2 (escChars l2 ++ '"' :: rest) ('"' :: acc) := rfl
      rw [key, ih f2 _ rest hrec]
      exact congrArg (fun z => some (String.mk z, rest)) (by simp)
    · by_cases h2 : c = '\\'
      · subst h2
        have key : parseStringAux (f2 + 1)
            (escapeChar '\\' ++ (escChars l2 ++ '"' :: rest)) acc =
            parseStringAux f2 (escChars l2 ++ '"' :: rest) ('\\' :: acc) := rfl
        rw [key, ih f2 _ rest hrec]
        exact congrArg (fun z => some (String.mk z, rest)) (by simp)
      · by_cases h3 : c = '\x08'
        · subst h3
          have key : parseStringAux (f2 + 1)
              (escapeChar '\x08' ++ (escChars l2 ++ '"' :: rest)) acc =
              parseStringAux f2 (escChars l2 ++ '"' :: rest) ('\x08' :: acc) := rfl
          rw [key, ih f2 _ rest hrec]
          exact congrArg (fun z => some (String.mk z, rest)) (by simp)
        · by_cases h4 : c = '\t'
          · subst h4
            have key : parseStringAux (f2 + 1)
                (escapeChar '\t' ++ (escChars l2 ++ '"' :: rest)) acc =
                parseStringAux f2 (escChars l2 ++ '"' :: rest) ('\t' :: acc) := rfl
            rw [key, ih f2 _ rest hrec]
            exact congrArg (fun z => some (String.mk z, rest)) (by simp)
          · by_cases h5 : c = '\n'
            · subst h5
              have key : parseStringAux (f2 + 1)
                  (escapeChar '\n' ++ (escChars l2 ++ '"' :: rest)) acc =
                  parseStringAux f2 (escChars l2 ++ '"' :: rest) ('\n' :: acc) := rfl
              rw [key, ih f2 _ rest hrec]
              exact congrArg (fun z => some (String.mk z, rest)) (by simp)
            · by_cases h6 : c = '\x0c'
              · subst h6
                have key : parseStringAux (f2 + 1)
                    (escapeChar '\x0c' ++ (escChars l2 ++ '"' :: rest)) acc =
                    parseStringAux f2 (escChars l2 ++ '"' :: rest) ('\x0c' :: acc) := rfl
                rw [key, ih f2 _ rest hrec]
                exact congrArg (fun z => some (String.mk z, rest)) (by simp)
              · by_cases h7 : c = '\r'
                · subst h7
                  have key : parseStringAux (f2 + 1)
                      (escapeChar '\r' ++ (escChars l2 ++ '"' :: rest)) acc =
                      parseStringAux f2 (escChars l2 ++ '"' :: rest) ('\r' :: acc) := rfl
                  rw [key, ih f2 _ rest hrec]
                  exact congrArg (fun z => some (String.mk z, rest)) (by simp)
                · by_cases h8 : c.toNat < 32
                  · have hesc : escapeChar c = ['\\', 'u', '0', '0',
                        hexDigitChar (c.toNat / 16), hexDigitChar (c.toNat % 16)] := by
                      rw [escapeChar, if_neg h1, if_neg h2, if_neg h3, if_neg h4,
                        if_neg h5, if_neg h6, if_neg h7, if_pos h8]
                    rw [hesc]
                    simp only [List.cons_append, List.nil_append]
                    rw [parseStringAux_u00 f2 c.toNat h8, Char.ofNat_toNat,
                      ih f2 _ rest hrec]
                    exact congrArg (fun z => some (String.mk z, rest)) (by simp)
                  · have hesc : escapeChar c = [c] := by
                      rw [escapeChar, if_neg h1, if_neg h2, if_neg h3, if_neg h4,
                        if_neg h5, if_neg h6, if_neg h7, if_neg h8]
                    rw [hesc]
                    simp only [List.cons_append, List.nil_append]
                    rw [parseStringAux_ordinary f2 c h1 h2 h8, ih f2 _ rest hrec]
                    exact congrArg (fun z => some (String.mk z, rest)) (by simp)

/-- Parsing a serialized string literal body after its opening quote,
at the parser's canonical fuel. -/
theorem parseString_escapeString (s : String) (rest : List Char) :
    parseString (escChars s.data ++ ('"' :: rest)) [] = some (s, rest) := by
  unfold parseString
  rw [parseStringAux_escChars s.data _ [] rest (by omega)]
  refine congrArg (fun z => some (z, rest)) ?_
  show String.mk s.data = s
  cases s
  rfl

/-- Inserting a fresh key appends it. -/
theorem dictInsert_not_mem (m : List (String × Json)) (k : String) (v : Json)
    (h : k ∉ m.map Prod.fst) : dictInsert m k v = m ++ [(k, v)] := by
  induction m with
  | nil => rfl
  | cons p m2 ih =>
    obtain ⟨k2, v2⟩ := p
    simp only [List.map_cons, List.mem_cons] at h
    push_neg at h
    rw [dictInsert, if_neg (fun hcon => h.1 hcon.symm), ih h.2]
    rfl

/-- Folding dict insertion over fresh keys just appends them. -/
theorem mkObj_aux (ps : List (String × Json)) :
    ∀ pre : List (String × Json), ((pre ++ ps).map Prod.fst).Nodup →
      ps.foldl (fun m kv => dictInsert m kv.1 kv.2) pre = pre ++ ps := by
  induction ps with
  | nil => intro pre _; simp
  | cons p ps2 ih =>
    intro pre h
    obtain ⟨k, v⟩ := p
    rw [List.foldl_cons]
    have hk : k ∉ pre.map Prod.fst := by
      rw [List.map_append] at h
      have hd := (List.nodup_append.mp h).2.2
      intro hmem
      exact hd hmem (by simp)
    show ps2.foldl (fun m kv => dictInsert m kv.1 kv.2) (dictInsert pre k v) =
      pre ++ (k, v) :: ps2
    rw [dictInsert_not_mem pre k v hk, ih (pre ++ [(k, v)])
      (by rw [List.append_assoc]; simpa using h)]
    simp

/-- A member list with pairwise-distinct keys survives dict building. -/
theorem mkObj_nodup (ps : List (String × Json)) (h : (ps.map Prod.fst).Nodup) :
    mkObj ps = ps := by
  have h2 := mkObj_aux ps [] (by simpa using h)
  simpa [mkObj] using h2

/-- A digit character is not whitespace, a closer, or a separator. -/
theorem digit_not_special (c : Char) (h : isDigitChar c = true) :
    jsonWs c = false ∧ c ≠ ']' ∧ c ≠ '}' ∧ c ≠ ',' := by
  have h48 : 48 ≤ c.toNat ∧ c.toNat ≤ 57 := by simpa [isDigitChar] using h
  refine ⟨?_, ?_, ?_, ?_⟩
  · unfold jsonWs
    simp only [Bool.or_eq_false_iff, decide_eq_false_iff_not]
    refine ⟨⟨⟨?_, ?_⟩, ?_⟩, ?_⟩ <;> intro hcon <;> subst hcon <;>
      exact absurd h48 (by decide)
  · intro hcon; subst hcon; exact absurd h48 (by decide)
  · intro hcon; subst hcon; exact absurd h48 (by decide)
  · intro hcon; subst hcon; exact absurd h48 (by decide)

/-- Every serialized value starts with a non-whitespace character that
is not a closer or separator. -/
theorem serJson_head (v : Json) :
    ∃ c t, serJson v = c :: t ∧ jsonWs c = false ∧ c ≠ ']' ∧ c ≠ '}' ∧ c ≠ ',' := by
  cases v with
  | null => exact ⟨'n', ['u', 'l', 'l'], rfl, by decide, by decide, by decide, by decide⟩
  | bool b =>
    cases b
    · exact ⟨'f', ['a', 'l', 's', 'e'], rfl, by decide, by decide, by decide, by decide⟩
    · exact ⟨'t', ['r', 'u', 'e'], rfl, by decide, by decide, by decide, by decide⟩
  | num i =>
    by_cases hi : i < 0
    · refine ⟨'-', natToChars i.natAbs, ?_, by decide, by decide, by decide, by decide⟩
      show intToChars i = _
      rw [intToChars, if_pos hi]
    · rcases hN : natToChars i.toNat with _ | ⟨d, ds⟩
      · exact absurd hN (natToCharsFuel_ne_nil (i.toNat + 1) i.toNat (by omega))
      · have hd : isDigitChar d = true := by
          have hall : ∀ c ∈ natToChars i.toNat, isDigitChar c = true :=
            natToCharsFuel_all_digits (i.toNat + 1) i.toNat (by omega)
          rw [hN] at hall
          exact hall d (List.mem_cons_self d ds)
        obtain ⟨hw, he1, he2, he3⟩ := digit_not_special d hd
        refine ⟨d, ds, ?_, hw, he1, he2, he3⟩
        show intToChars i = _
        rw [intToChars, if_neg hi, hN]
  | str s =>
    exact ⟨'"', escChars s.data ++ ['"'], rfl, by decide, by decide, by decide, by decide⟩
  | arr l =>
    cases l with
    | nil => exact ⟨'[', [']'], rfl, by decide, by decide, by decide, by decide⟩
    | cons x xs =>
      exact ⟨'[', serJson x ++ serArrTail xs, rfl, by decide, by decide, by decide, by decide⟩
  | obj kvs =>
    cases kvs with
    | nil => exact ⟨'{', ['}'], rfl, by decide, by decide, by decide, by decide⟩
    | cons kv kvs2 =>
      obtain ⟨k, v0⟩ := kv
      exact ⟨'{', escapeString k ++ ':' :: ' ' :: serJson v0 ++ serObjTail kvs2, rfl,
        by decide, by decide, by decide, by decide⟩

/-- Whitespace skipping is the identity on non-whitespace heads. -/
theorem skipWs_of_head (c : Char) (t : List Char) (h : jsonWs c = false) :
    skipWs (c :: t) = c :: t := by
  simp [skipWs, List.dropWhile_cons, h]

/-- Whitespace skipping is the identity on serialized values. -/
theorem skipWs_serJson (v : Json) (rest : List Char) :
    skipWs (serJson v ++ rest) = serJson v ++ rest := by
  obtain ⟨c, t, hct, hw, -, -, -⟩ := serJson_head v
  rw [hct, List.cons_append, skipWs_of_head c _ hw]

/-- What follows a serialized array item is a legal separator/closer. -/
theorem sepOk_serArrTail (xs : List Json) (rest : List Char) :
    SepOk (serArrTail xs ++ rest) := by
  cases xs with
  | nil => exact Or.inr (Or.inl rfl)
  | cons y ys => exact Or.inl rfl

/-- What follows a serialized object member is a legal separator/closer. -/
theorem sepOk_serObjTail (kvs : List (String × Json)) (rest : List Char) :
    SepOk (serObjTail kvs ++ rest) := by
  cases kvs with
  | nil => exact Or.inr (Or.inr rfl)
  | cons kv kvs2 =>
    obtain ⟨k, v0⟩ := kv
    exact Or.inl rfl

/-- The `[`-branch of the value parser, exposed. -/
theorem parseVal_bracket (n : Nat) (rest0 : List Char) :
    parseVal (n + 1) ('[' :: rest0) =
      (match skipWs rest0 with
       | ']' :: r => some (Json.arr [], r)
       | s1 =>
         match parseVal n s1 with
         | some (v, r1) => parseTail n r1 [v]
         | none => none) := rfl

/-- The `{"`-prefix of the value parser, exposed. -/
theorem parseVal_braceOpen_str (n : Nat) (Y : List Char) :
    parseVal (n + 1) ('{' :: '"' :: Y) =
      (match parseString Y [] with
       | some (k, r1) =>
         match skipWs r1 with
         | ':' :: r2 =>
           match parseVal n (skipWs r2) with
           | some (v, r3) => parseMemTail n r3 [(k, v)]
           | none => none
         | _ => none
       | none => none) := rfl

/-- A digit-headed input goes to the number parser. -/
theorem parseVal_digit (n : Nat) (d : Char) (t : List Char) (hd : isDigitChar d = true) :
    parseVal (n + 1) (d :: t) = parseNum (d :: t) := by
  have h1 : 48 ≤ d.toNat ∧ d.toNat ≤ 57 := by simpa [isDigitChar] using hd
  obtain ⟨m, hm48, hm57, rfl⟩ : ∃ m, 48 ≤ m ∧ m ≤ 57 ∧ d = Char.ofNat m :=
    ⟨d.toNat, h1.1, h1.2, (Char.ofNat_toNat d).symm⟩
  interval_cases m <;> rfl

/-- Inversion: well-formed array elements are well-formed. -/
theorem jsonWf_arr_inv {l : List Json} (h : JsonWf (Json.arr l)) : ∀ x ∈ l, JsonWf x := by
  cases h
  assumption

/-- Inversion: a well-formed object has pairwise-distinct keys. -/
theorem jsonWf_obj_nodup {kvs : List (String × Json)} (h : JsonWf (Json.obj kvs)) :
    (kvs.map Prod.fst).Nodup := by
  cases h
  assumption

/-- Inversion: well-formed object values are well-formed. -/
theorem jsonWf_obj_vals {kvs : List (String × Json)} (h : JsonWf (Json.obj kvs)) :
    ∀ kv ∈ kvs, JsonWf kv.2 := by
  cases h
  assumption

/-- The closing branch of the array-tail parser, exposed. -/
theorem parseTail_close (n : Nat) (rest : List Char) (acc : List Json) :
    parseTail (n + 1) (']' :: rest) acc = some (Json.arr acc.reverse, rest) := rfl

/-- The comma branch of the array-tail parser on serializer output. -/
theorem parseTail_comma (n : Nat) (Z : List Char) (acc : List Json) :
    parseTail (n + 1) (',' :: ' ' :: Z) acc =
      (match parseVal n (skipWs Z) with
       | some (v, r1) => parseTail n r1 (v :: acc)
       | none => none) := rfl

/-- The closing branch of the member-tail parser, exposed. -/
theorem parseMemTail_close (n : Nat) (rest : List Char) (acc : List (String × Json)) :
    parseMemTail (n + 1) ('}' :: rest) acc = some (Json.obj (mkObj acc.reverse), rest) := rfl

/-- The comma branch of the member-tail parser on serializer output. -/
theorem parseMemTail_comma (n : Nat) (Y : List Char) (acc : List (String × Json)) :
    parseMemTail (n + 1) (',' :: ' ' :: '"' :: Y) acc =
      (match parseString Y [] with
       | some (k, r2) =>
         match skipWs r2 with
         | ':' :: r3 =>
           match parseVal n (skipWs r3) with
           | some (v, r4) => parseMemTail n r4 ((k, v) :: acc)
           | none => none
         | _ => none
       | none => none) := rfl

/-- The strict parser inverts the serializer: with enough fuel, a
serialized well-formed value parses back to itself, leaving any legal
continuation untouched; likewise for serialized array and member
tails. -/
theorem parse_serialize (f : Nat) :
    (∀ (v : Json) (rest : List Char), JsonWf v → SepOk rest →
        (serJson v ++ rest).length + 1 ≤ f →
        parseVal f (serJson v ++ rest) = some (v, rest)) ∧
    (∀ (xs : List Json) (acc : List Json) (rest : List Char),
        (∀ x ∈ xs, JsonWf x) →
        (serArrTail xs ++ rest).length + 1 ≤ f →
        parseTail f (serArrTail xs ++ rest) acc =
          some (Json.arr (acc.reverse ++ xs), rest)) ∧
    (∀ (kvs : List (String × Json)) (acc : List (String × Json)) (rest : List Char),
        (∀ kv ∈ kvs, JsonWf kv.2) →
        (serObjTail kvs ++ rest).length + 1 ≤ f →
        parseMemTail f (serObjTail kvs ++ rest) acc =
          some (Json.obj (mkObj (acc.reverse ++ kvs)), rest)) := by
  induction f with
  | zero =>
    refine ⟨?_, ?_, ?_⟩
    · intro v rest hwf hsep hlen
      exact absurd hlen (by omega)
    · intro xs acc rest hall hlen
      exact absurd hlen (by omega)
    · intro kvs acc rest hall hlen
      exact absurd hlen (by omega)
  | succ n ih =>
    obtain ⟨ihA, ihB, ihC⟩ := ih
    refine ⟨?_, ?_, ?_⟩
    · intro v rest hwf hsep hlen
      cases v with
      | null => rfl
      | bool b => cases b <;> rfl
      | num i =>
        by_cases hi : i < 0
        · have hser : serJson (Json.num i) = '-' :: natToChars i.natAbs := by
            show intToChars i = _
            rw [intToChars, if_pos hi]
          rw [hser, List.cons_append]
          have key : parseVal (n + 1) ('-' :: (natToChars i.natAbs ++ rest)) =
              parseNum ('-' :: (natToChars i.natAbs ++ rest)) := rfl
          rw [key]
          have h2 := parseNum_intToChars i rest hsep
          rw [intToChars, if_pos hi, List.cons_append] at h2
          exact h2
        · rcases hN : natToChars i.toNat with _ | ⟨d, ds⟩
          · exact absurd hN (natToCharsFuel_ne_nil (i.toNat + 1) i.toNat (by omega))
          · have hd : isDigitChar d = true := by
              have hall2 : ∀ c ∈ natToChars i.toNat, isDigitChar c = true :=
                natToCharsFuel_all_digits (i.toNat + 1) i.toNat (by omega)
              rw [hN] at hall2
              exact hall2 d (List.mem_cons_self d ds)
            have hser : serJson (Json.num i) = d :: ds := by
              show intToChars i = _
              rw [intToChars, if_neg hi, hN]
            rw [hser, List.cons_append, parseVal_digit n d _ hd]
            have h2 := parseNum_intToChars i rest hsep
            rw [intToChars, if_neg hi, hN, List.cons_append] at h2
            exact h2
      | str s =>
        have hform : serJson (Json.str s) ++ rest =
            '"' :: (escChars s.data ++ ('"' :: rest)) := by
          show ('"' :: (escChars s.data ++ ['"'])) ++ rest = _
          simp
        rw [hform]
        have key : parseVal (n + 1) ('"' :: (escChars s.data ++ ('"' :: rest))) =
            (match parseString (escChars s.data ++ ('"' :: rest)) [] with
             | some (s2, r) => some (Json.str s2, r)
             | none => none) := rfl
        rw [key, parseString_escapeString s rest]
      | arr l =>
        cases l with
        | nil => rfl
        | cons x xs =>
          obtain ⟨c, t, hct, hw, hne1, hne2, hne3⟩ := serJson_head x
          have hall := jsonWf_arr_inv hwf
          have hform : serJson (Json.arr (x :: xs)) ++ rest =
              '[' :: (serJson x ++ (serArrTail xs ++ rest)) := by
            show ('[' :: (serJson x ++ serArrTail xs)) ++ rest = _
            simp
          rw [hform] at hlen ⊢
          simp only [List.length_cons, List.length_append] at hlen
          have hx1 : 1 ≤ (serJson x).length := by rw [hct]; simp
          rw [parseVal_bracket, skipWs_serJson x (serArrTail xs ++ rest), hct,
            List.cons_append]
          split
          · rename_i r heq
            injection heq with h1 h2
            exact absurd h1 hne1
          · rw [← List.cons_append, ← hct]
            rw [ihA x (serArrTail xs ++ rest) (hall x (List.mem_cons_self x xs))
              (sepOk_serArrTail xs rest)
              (by simp only [List.length_append]; omega)]
            show parseTail n (serArrTail xs ++ rest) [x] = some (Json.arr (x :: xs), rest)
            rw [ihB xs [x] rest (fun z hz => hall z (List.mem_cons_of_mem x hz))
              (by simp only [List.length_append]; omega)]
            simp
      | obj kvs =>
        cases kvs with
        | nil => rfl
        | cons kv kvs2 =>
          obtain ⟨k, v0⟩ := kv
          have hvals := jsonWf_obj_vals hwf
          have hnd := jsonWf_obj_nodup hwf
          have hform : serJson (Json.obj ((k, v0) :: kvs2)) ++ rest =
              '{' :: '"' :: (escChars k.data ++
                ('"' :: ':' :: ' ' :: (serJson v0 ++ (serObjTail kvs2 ++ rest)))) := by
            rw [show serJson (Json.obj ((k, v0) :: kvs2)) =
              '{' :: (escapeString k ++ ':' :: ' ' :: serJson v0 ++ serObjTail kvs2) from rfl,
              show escapeString k = '"' :: (escChars k.data ++ ['"']) from rfl]
            simp
          rw [hform] at hlen ⊢
          simp only [List.length_cons, List.length_append] at hlen
          rw [parseVal_braceOpen_str, parseString_escapeString k
            (':' :: ' ' :: (serJson v0 ++ (serObjTail kvs2 ++ rest)))]
          show (match parseVal n (skipWs (serJson v0 ++ (serObjTail kvs2 ++ rest))) with
                | some (v, r3) => parseMemTail n r3 [(k, v)]
                | none => none) = some (Json.obj ((k, v0) :: kvs2), rest)
          rw [skipWs_serJson v0 (serObjTail kvs2 ++ rest)]
          rw [ihA v0 (serObjTail kvs2 ++ rest)
            (hvals (k, v0) (List.mem_cons_self (k, v0) kvs2))
            (sepOk_serObjTail kvs2 rest)
            (by simp only [List.length_append]; omega)]
          show parseMemTail n (serObjTail kvs2 ++ rest) [(k, v0)] =
            some (Json.obj ((k, v0) :: kvs2), rest)
          rw [ihC kvs2 [(k, v0)] rest
            (fun kv2 hkv2 => hvals kv2 (List.mem_cons_of_mem (k, v0) hkv2))
            (by simp only [List.length_append]; omega)]
          show some (Json.obj (mkObj ((k, v0) :: kvs2)), rest) =
            some (Json.obj ((k, v0) :: kvs2), rest)
          rw [mkObj_nodup _ hnd]
    · intro xs acc rest hall hlen
      cases xs with
      | nil =>
        show parseTail (n + 1) (']' :: rest) acc = some (Json.arr (acc.reverse ++ []), rest)
        rw [parseTail_close]
        simp
      | cons y ys =>
        have hform : serArrTail (y :: ys) ++ rest =
            ',' :: ' ' :: (serJson y ++ (serArrTail ys ++ rest)) := by
          show (',' :: ' ' :: (serJson y ++ serArrTail ys)) ++ rest = _
          simp
        rw [hform] at hlen ⊢
        simp only [List.length_cons, List.length_append] at hlen
        rw [parseTail_comma, skipWs_serJson y (serArrTail ys ++ rest)]
        rw [ihA y (serArrTail ys ++ rest) (hall y (List.mem_cons_self y ys))
          (sepOk_serArrTail ys rest)
          (by simp only [List.length_append]; omega)]
        show parseTail n (serArrTail ys ++ rest) (y :: acc) =
          some (Json.arr (acc.reverse ++ y :: ys), rest)
        rw [ihB ys (y :: acc) rest (fun z hz => hall z (List.mem_cons_of_mem y hz))
          (by simp only [List.length_append]; omega)]
        simp
    · intro kvs acc rest hall hlen
      cases kvs with
      | nil =>
        show parseMemTail (n + 1) ('}' :: rest) acc =
          some (Json.obj (mkObj (acc.reverse ++ [])), rest)
        rw [parseMemTail_close]
        simp
      | cons kv kvs2 =>
        obtain ⟨k, v0⟩ := kv
        have hform : serObjTail ((k, v0) :: kvs2) ++ rest =
            ',' :: ' ' :: '"' :: (escChars k.data ++
              ('"' :: ':' :: ' ' :: (serJson v0 ++ (serObjTail kvs2 ++ rest)))) := by
          rw [show serObjTail ((k, v0) :: kvs2) =
            ',' :: ' ' :: (escapeString k ++ ':' :: ' ' :: serJson v0 ++ serObjTail kvs2)
            from rfl,
            show escapeString k = '"' :: (escChars k.data ++ ['"']) from rfl]
          simp
        rw [hform] at hlen ⊢
        simp only [List.length_cons, List.length_append] at hlen
        rw [parseMemTail_comma, parseString_escapeString k
          (':' :: ' ' :: (serJson v0 ++ (serObjTail kvs2 ++ rest)))]
        show (match parseVal n (skipWs (serJson v0 ++ (serObjTail kvs2 ++ rest))) with
              | some (v, r4) => parseMemTail n r4 ((k, v) :: acc)
              | none => none) =
          some (Json.obj (mkObj (acc.reverse ++ (k, v0) :: kvs2)), rest)
        rw [skipWs_serJson v0 (serObjTail kvs2 ++ rest)]
        rw [ihA v0 (serObjTail kvs2 ++ rest)
          (hall (k, v0) (List.mem_cons_self (k, v0) kvs2))
          (sepOk_serObjTail kvs2 rest)
          (by simp only [List.length_append]; omega)]
        show parseMemTail n (serObjTail kvs2 ++ rest) ((k, v0) :: acc) =
          some (Json.obj (mkObj (acc.reverse ++ (k, v0) :: kvs2)), rest)
        rw [ihC kvs2 ((k, v0) :: acc) rest
          (fun kv2 hkv2 => hall kv2 (List.mem_cons_of_mem (k, v0) hkv2))
          (by simp only [List.length_append]; omega)]
        simp

/-- `json.loads` inverts `json.dumps` on well-formed values. -/
theorem json_loads_serialize (v : Json) (hwf : JsonWf v) :
    json_loads (json_dumps v) = some v := by
  have hA := (parse_serialize ((serJson v).length + 1)).1 v [] hwf trivial
    (by simp)
  rw [List.append_nil] at hA
  have hskip : skipWs (serJson v) = serJson v := by
    have h2 := skipWs_serJson v []
    rwa [List.append_nil] at h2
  show (match parseVal ((skipWs (serJson v)).length + 1) (skipWs (serJson v)) with
        | some (v2, r) => if skipWs r = [] then some v2 else none
        | none => none) = some v
  rw [hskip, hA]
  rfl

/-- C8 counterexample: the round-trip through `extract_json` fails for a
well-formed JSON object whose serialization happens to contain a
"```json ... ```" fence inside a string value: the fence step discards
everything outside the fence, the inner braces parse as the empty
object, and the original object is lost. -/
theorem extract_json_roundtrip_counterexample :
    JsonWf (Json.obj [("a", Json.str "```json \x7b\x7d ```")]) ∧
    (Json.obj [("a", Json.str "```json \x7b\x7d ```")]).isObj = true ∧
    extract_json (some (json_dumps (Json.obj [("a", Json.str "```json \x7b\x7d ```")]))) =
      Json.obj [] ∧
    Json.obj ([] : List (String × Json)) ≠
      Json.obj [("a", Json.str "```json \x7b\x7d ```")] := by
  refine ⟨JsonWf.obj _ (by simp) ?_, rfl, rfl, by simp⟩
  intro kv hkv
  simp at hkv
  rw [hkv]
  exact JsonWf.str _

/-- C8 (amended): for every well-formed JSON object O whose serialization
contains no "```json" fence match, `extract_json (json.dumps O)` returns
O through the direct-parse path.  Well-formed means every object in O
has pairwise-distinct keys; the no-fence hypothesis is necessary by the
counterexample. -/
theorem extract_json_roundtrip_no_fence (O : Json) (hwf : JsonWf O)
    (hobj : O.isObj = true) (hnof : findFence (serJson O) = none) :
    extract_json (some (json_dumps O)) = O := by
  obtain ⟨c, t, hct, -, -, -, -⟩ := serJson_head O
  have hne : json_dumps O ≠ "" := by
    rw [json_dumps, hct]
    intro hcon
    have h2 := congrArg String.data hcon
    simp at h2
  have hload2 : json_loads_chars (serJson O) = some O := json_loads_serialize O hwf
  show (if json_dumps O = "" then Json.null
    else
      match json_loads_chars (fenceCandidate (serJson O)) with
      | some v => v
      | none =>
        match braceSlice (fenceCandidate (serJson O)) with
        | some candidate =>
          match json_loads_chars candidate with
          | some v => v
          | none =>
            match json_loads_chars (stripTrailingCommas candidate) with
            | some v => v
            | none => Json.null
        | none => Json.null) = O
  rw [if_neg hne, fenceCandidate, hnof, Option.getD_none, hload2]

/-- Witness for the amended C8 round-trip on a concrete two-key object. -/
theorem extract_json_roundtrip_no_fence_witness :
    extract_json (some (json_dumps (Json.obj [("a", Json.num 1), ("b", Json.str "x")]))) =
      Json.obj [("a", Json.num 1), ("b", Json.str "x")] :=
  extract_json_roundtrip_no_fence _
    (JsonWf.obj _ (by simp) (by
      intro kv hkv
      simp at hkv
      rcases hkv with h | h
      · rw [h]; exact JsonWf.num 1
      · rw [h]; exact JsonWf.str "x"))
    rfl rfl
